import Mathlib

/-
Verification of luke/pretraining/batch_generator.py.

The worker classes are embedded as pure Lean functions.  Randomness
(`np.random.permutation`, `random.random`, `random.randint`) is made explicit:
every function that draws random numbers receives the drawn permutation as a
`List ℕ` argument and the per-position replacement decisions as a
`ℕ → MaskAction` oracle, so each theorem quantifies over all possible draws.
Numpy integer arrays are `List ℤ` (2-D arrays are `List (List ℤ)`).  The
floating-point probabilities `masked_lm_prob` / `masked_entity_prob` are
exact nonnegative fractions `num / den` (every float is such a fraction), so
`prob == 0.0` is `num = 0` and `int(round(count * prob))` is integer
arithmetic on `count * num` and `den`.
-/

/-- Exact value of a float probability, as the fraction `num / den`.
Theorems using it carry `0 < den`; probabilities are nonnegative per the
interface contract (`[0, 1]`). -/
structure Prob where
  num : ℕ
  den : ℕ

/-- Python's `int(round(count * (p.num / p.den)))` with the builtin `round`
(banker's rounding, half to even), computed exactly:
`count * p.num = f * p.den + rem` with `rem = count * p.num % p.den`, and the
fractional part is below / above / at one half according as `2 * rem` is
below / above / equal to `p.den`. -/
def probRound (count : ℕ) (p : Prob) : ℕ :=
  let t := count * p.num
  let f := t / p.den
  if 2 * (t % p.den) < p.den then f
  else if p.den < 2 * (t % p.den) then f + 1
  else if f % 2 = 0 then f else f + 1

/-- Write `src` over the leading positions of `dst`, keeping the tail of `dst`:
models the numpy slice assignment `dst[:len(src)] = src` (which requires
`len(src) <= len(dst)`; theorems carry that bound where it matters). -/
def copyInto {α : Type} (dst src : List α) : List α :=
  src.take dst.length ++ dst.drop src.length

/-- One random draw for a masked position, abstracting the source's
`p = random.random()` branch: with `p < 0.8` replace the token with the mask
id, with `0.8 <= p < 0.9` replace it with a random vocabulary id `w`,
otherwise keep the original id. -/
inductive MaskAction
  | mask
  | randomize (w : ℤ)
  | keep

/-- The id written back into `output_word_ids[index]` for a masked position. -/
def applyMask (maskId orig : ℤ) : MaskAction → ℤ
  | .mask => maskId
  | .randomize w => w
  | .keep => orig

/-- Mutable state of the word-masking loop in `_create_word_features`:
`output_word_ids`, `masked_lm_labels`, the remaining `num_to_predict` budget,
and how many random draws have been consumed so far. -/
structure MaskState where
  out : List ℤ
  labels : List ℤ
  budget : ℕ
  draw : ℕ

/-- Inner loop `for index in indices_to_mask:` of `_create_word_features`:
record the original id into the label array, stochastically replace the
visible id, and decrement the budget once per position. -/
def maskIndices (maskId : ℤ) (acts : ℕ → MaskAction) : List ℕ → MaskState → MaskState
  | [], s => s
  | i :: rest, s =>
    let orig := s.out.getD i 0
    maskIndices maskId acts rest
      ⟨s.out.set i (applyMask maskId orig (acts s.draw)), s.labels.set i orig,
       s.budget - 1, s.draw + 1⟩

/-- Outer loop `for i in np.random.permutation(len(candidate_word_indices)):`
of `_create_word_features`: skip a candidate group larger than the remaining
budget, otherwise mask it whole; stop when the budget reaches zero. -/
def maskLoop (groups : List (List ℕ)) (maskId : ℤ) (acts : ℕ → MaskAction) :
    List ℕ → MaskState → MaskState
  | [], s => s
  | i :: rest, s =>
    let g := groups.getD i []
    if g.length > s.budget then maskLoop groups maskId acts rest s
    else
      let s2 := maskIndices maskId acts g s
      if s2.budget = 0 then s2 else maskLoop groups maskId acts rest s2

/-- One step of building `candidate_word_indices`: when whole-word masking is
on, the token is a continuation piece (`word.startswith('##')`), and a group
already exists, append the 1-based position to the last group; otherwise start
a new singleton group. -/
def wwmStep (whole : Bool) (cont : ℤ → Bool) (gs : List (List ℕ)) (p : ℕ × ℤ) :
    List (List ℕ) :=
  if whole && cont p.2 && !gs.isEmpty then gs.dropLast ++ [gs.getLastD [] ++ [p.1]]
  else gs ++ [[p.1]]

/-- `candidate_word_indices` of `_create_word_features`: positions are
1-based to account for the inserted `[CLS]`; `cont id` tells whether the token
of `id` is a word-continuation piece (models
`self._tokenizer.convert_ids_to_tokens` followed by `startswith('##')`). -/
def buildGroups (whole : Bool) (cont : ℤ → Bool) (wordIds : List ℤ) : List (List ℕ) :=
  (List.enumFrom 1 wordIds).foldl (wwmStep whole cont) []

/-- The configuration a worker resolves once at start: the structural maxima
and special ids read from the dataset/tokenizer, plus the constructor
parameters. -/
structure WorkerCfg where
  maxSeqLength : ℕ
  maxEntityLength : ℕ
  maxMentionLength : ℕ
  maxCandidateLength : ℕ
  clsId : ℤ
  sepId : ℤ
  maskId : ℤ
  entityMaskId : ℤ
  vocabSize : ℕ
  maskedLmProb : Prob
  maskedEntityProb : Prob
  wholeWordMasking : Bool

/-- Result of `BaseBatchWorker._create_word_features`. -/
structure WordFeatures where
  word_ids : List ℤ
  word_attention_mask : List ℤ
  word_segment_ids : List ℤ
  masked_lm_labels : Option (List ℤ)

/-- `BaseBatchWorker._create_word_features`.  `perm` is the drawn
`np.random.permutation(len(candidate_word_indices))` and `acts` the stream of
replacement decisions. -/
def createWordFeatures (cfg : WorkerCfg) (cont : ℤ → Bool) (perm : List ℕ)
    (acts : ℕ → MaskAction) (wordIds : List ℤ) : WordFeatures :=
  let outputWordIds := copyInto (List.replicate cfg.maxSeqLength (0 : ℤ))
      (cfg.clsId :: (wordIds ++ [cfg.sepId]))
  let wordAttentionMask := copyInto (List.replicate cfg.maxSeqLength (0 : ℤ))
      (List.replicate (wordIds.length + 2) (1 : ℤ))
  if cfg.maskedLmProb.num = 0 then
    ⟨outputWordIds, wordAttentionMask, List.replicate cfg.maxSeqLength 0, none⟩
  else
    let numToPredict := max 1 (probRound wordIds.length cfg.maskedLmProb)
    let groups := buildGroups cfg.wholeWordMasking cont wordIds
    let s := maskLoop groups cfg.maskId acts perm
      ⟨outputWordIds, List.replicate cfg.maxSeqLength (-1), numToPredict, 0⟩
    ⟨s.out, wordAttentionMask, List.replicate cfg.maxSeqLength 0, some s.labels⟩

/-- Number of label slots that are prediction targets (holding a real id
instead of the `-1` sentinel). -/
def labelCount (l : List ℤ) : ℕ :=
  l.countP (fun x => decide (x ≠ -1))

example : probRound 1 ⟨15, 100⟩ = 0 := by decide
example : probRound 5 ⟨15, 100⟩ = 1 := by decide
example : probRound 10 ⟨15, 100⟩ = 2 := by decide
example : probRound 3 ⟨1, 2⟩ = 2 := by decide
example : probRound 1 ⟨1, 2⟩ = 0 := by decide
example : buildGroups false (fun x => x = 11) [10, 11, 12] = [[1], [2], [3]] := by decide
example : buildGroups true (fun x => x = 11) [10, 11, 12] = [[1, 2], [3]] := by decide
example : buildGroups true (fun _ => true) [10, 11, 12] = [[1, 2, 3]] := by decide
example :
    (createWordFeatures ⟨6, 0, 0, 0, 101, 102, 103, 0, 30, ⟨0, 1⟩, ⟨0, 1⟩, false⟩
      (fun _ => false) [] (fun _ => .keep) [7, 8, 9]).word_ids =
    [101, 7, 8, 9, 102, 0] := by decide
example :
    (createWordFeatures ⟨6, 0, 0, 0, 101, 102, 103, 0, 30, ⟨15, 100⟩, ⟨0, 1⟩, false⟩
      (fun _ => false) [1, 0, 2] (fun _ => .mask) [7, 8, 9]).masked_lm_labels =
    some [-1, -1, 8, -1, -1, -1] := by decide
example :
    (createWordFeatures ⟨6, 0, 0, 0, 101, 102, 103, 0, 30, ⟨15, 100⟩, ⟨0, 1⟩, false⟩
      (fun _ => false) [1, 0, 2] (fun _ => .mask) [7, 8, 9]).word_ids =
    [101, 7, 103, 9, 102, 0] := by decide

/-- `entity_position_ids += (entity_position_ids != -1)`: shift every
non-sentinel position by +1 for the inserted `[CLS]`. -/
def shiftPositions (rows : List (List ℤ)) : List (List ℤ) :=
  rows.map (fun r => r.map (fun x => if x = -1 then x else x + 1))

/-- The loop of `LukePretrainingBatchWorker._create_entity_features`: for each
chosen slot, copy the original entity id into the label array and overwrite
the visible id with the entity-mask id. -/
def entityMaskFold (entityIds : List ℤ) (entityMaskId : ℤ) (chosen : List ℕ)
    (labels out : List ℤ) : List ℤ × List ℤ :=
  chosen.foldl
    (fun st idx => (st.1.set idx (entityIds.getD idx 0), st.2.set idx entityMaskId))
    (labels, out)

/-- Result of `LukePretrainingBatchWorker._create_entity_features`
(mode `default`). -/
structure EntityFeatures where
  entity_ids : List ℤ
  entity_position_ids : List (List ℤ)
  entity_attention_mask : List ℤ
  entity_segment_ids : List ℤ
  masked_entity_labels : Option (List ℤ)

/-- `LukePretrainingBatchWorker._create_entity_features`.  `perm` is the drawn
`np.random.permutation(range(entity_ids.size))`; the slice `[:num_to_predict]`
is `perm.take`. -/
def createEntityFeatures (cfg : WorkerCfg) (perm : List ℕ) (entityIds : List ℤ)
    (entityPositionIds : List (List ℤ)) : EntityFeatures :=
  let outputEntityIds := copyInto (List.replicate cfg.maxEntityLength (0 : ℤ)) entityIds
  let entityAttentionMask := copyInto (List.replicate cfg.maxEntityLength (0 : ℤ))
      (List.replicate entityIds.length (1 : ℤ))
  let outputPositionIds := copyInto
      (List.replicate cfg.maxEntityLength (List.replicate cfg.maxMentionLength (-1 : ℤ)))
      (shiftPositions entityPositionIds)
  if cfg.maskedEntityProb.num = 0 then
    ⟨outputEntityIds, outputPositionIds, entityAttentionMask,
     List.replicate cfg.maxEntityLength 0, none⟩
  else
    let numToPredict := max 1 (probRound entityIds.length cfg.maskedEntityProb)
    let st := entityMaskFold entityIds cfg.entityMaskId (perm.take numToPredict)
      (List.replicate cfg.maxEntityLength (-1)) outputEntityIds
    ⟨st.2, outputPositionIds, entityAttentionMask,
     List.replicate cfg.maxEntityLength 0, some st.1⟩

/-- Result of `LukeE2EPretrainingBatchWorker._create_entity_features`
(mode `e2e`). -/
structure E2EEntityFeatures where
  entity_candidate_ids : List (List ℤ)
  entity_position_ids : List (List ℤ)
  entity_attention_mask : List ℤ
  entity_segment_ids : List ℤ
  entity_candidate_labels : List ℤ
  masked_entity_labels : Option (List ℤ)

/-- `LukeE2EPretrainingBatchWorker._create_entity_features`: packs the
candidate grid instead of direct entity ids; the masking loop writes only
`masked_entity_labels` and does not overwrite anything. -/
def createEntityFeaturesE2E (cfg : WorkerCfg) (perm : List ℕ) (entityIds : List ℤ)
    (entityPositionIds : List (List ℤ)) (entityCandidateIds : List (List ℤ))
    (entityCandidateLabels : List ℤ) : E2EEntityFeatures :=
  let outputCandidateIds := copyInto
      (List.replicate cfg.maxEntityLength (List.replicate cfg.maxCandidateLength (0 : ℤ)))
      entityCandidateIds
  let outputPositionIds := copyInto
      (List.replicate cfg.maxEntityLength (List.replicate cfg.maxMentionLength (-1 : ℤ)))
      (shiftPositions entityPositionIds)
  let entityAttentionMask := copyInto (List.replicate cfg.maxEntityLength (0 : ℤ))
      (List.replicate entityIds.length (1 : ℤ))
  let outputCandidateLabels := copyInto (List.replicate cfg.maxEntityLength (-1 : ℤ))
      entityCandidateLabels
  if cfg.maskedEntityProb.num = 0 then
    ⟨outputCandidateIds, outputPositionIds, entityAttentionMask,
     List.replicate cfg.maxEntityLength 0, outputCandidateLabels, none⟩
  else
    let numToPredict := max 1 (probRound entityIds.length cfg.maskedEntityProb)
    let labels := (perm.take numToPredict).foldl
      (fun l idx => l.set idx (entityIds.getD idx 0))
      (List.replicate cfg.maxEntityLength (-1))
    ⟨outputCandidateIds, outputPositionIds, entityAttentionMask,
     List.replicate cfg.maxEntityLength 0, outputCandidateLabels, some labels⟩

/-- A numpy array stored in a feature dict: 1-D or 2-D over `ℤ`. -/
inductive Arr
  | one (l : List ℤ)
  | two (g : List (List ℤ))
deriving DecidableEq

/-- `a[:n]`: trim the leading axis. -/
def Arr.trim (n : ℕ) : Arr → Arr
  | .one l => .one (l.take n)
  | .two g => .two (g.take n)

/-- Length of the leading axis. -/
def Arr.len : Arr → ℕ
  | .one l => l.length
  | .two g => g.length

/-- One example pulled from the dataset iterator, together with the random
draws its processing will consume (`wperm`/`wacts` for word masking, `eperm`
for entity masking). -/
structure ExampleIn where
  word_ids : List ℤ
  entity_ids : List ℤ
  entity_position_ids : List (List ℤ)
  entity_candidate_ids : List (List ℤ)
  entity_candidate_labels : List ℤ
  wperm : List ℕ
  wacts : ℕ → MaskAction
  eperm : List ℕ

/-- The word-feature dict produced for one example, in insertion order
(`masked_lm_labels` present only when the probability is nonzero). -/
def wordFeatureDict (cfg : WorkerCfg) (cont : ℤ → Bool) (ex : ExampleIn) :
    List (String × Arr) :=
  let f := createWordFeatures cfg cont ex.wperm ex.wacts ex.word_ids
  [("word_ids", Arr.one f.word_ids),
   ("word_attention_mask", Arr.one f.word_attention_mask),
   ("word_segment_ids", Arr.one f.word_segment_ids)] ++
  (match f.masked_lm_labels with
   | none => []
   | some l => [("masked_lm_labels", Arr.one l)])

/-- The entity-feature dict of the `default` worker for one example. -/
def entityFeatureDict (cfg : WorkerCfg) (ex : ExampleIn) : List (String × Arr) :=
  let f := createEntityFeatures cfg ex.eperm ex.entity_ids ex.entity_position_ids
  [("entity_ids", Arr.one f.entity_ids),
   ("entity_position_ids", Arr.two f.entity_position_ids),
   ("entity_attention_mask", Arr.one f.entity_attention_mask),
   ("entity_segment_ids", Arr.one f.entity_segment_ids)] ++
  (match f.masked_entity_labels with
   | none => []
   | some l => [("masked_entity_labels", Arr.one l)])

/-- `{k: np.stack([o[k][:maxLen] for o in buf]) for k in buf[0].keys()}`:
stack one field group of a full buffer, trimming each example's array to the
running maximum length. -/
def stackFields (maxLen : ℕ) (dicts : List (List (String × Arr))) :
    List (String × List Arr) :=
  match dicts with
  | [] => []
  | d0 :: _ =>
    d0.map (fun kv =>
      (kv.1, dicts.map (fun d => ((d.lookup kv.1).getD (Arr.one [])).trim maxLen)))

/-- A batch handed to the output queue: field name to stacked arrays (word
fields first, then entity fields, as the two dict updates do). -/
def mkBatchFromBuf (buf : List (List (String × Arr) × List (String × Arr)))
    (maxWordLen maxEntityLen : ℕ) : List (String × List Arr) :=
  stackFields maxWordLen (buf.map Prod.fst) ++ stackFields maxEntityLen (buf.map Prod.snd)

/-- The loop body of `BaseBatchWorker.run`, parametric in the two feature
methods (`_create_word_features` / `_create_entity_features`): accumulate
feature pairs and the two running maxima; emit a batch exactly when the buffer
reaches `batchSize`, then reset buffer and maxima to their minima. -/
def runLoop (batchSize : ℕ) (wf ef : ExampleIn → List (String × Arr)) :
    List ExampleIn → List (List (String × Arr) × List (String × Arr)) → ℕ → ℕ →
    List (List (String × List Arr))
  | [], _, _, _ => []
  | ex :: rest, buf, maxWordLen, maxEntityLen =>
    let buf2 := buf ++ [(wf ex, ef ex)]
    let maxWordLen2 := max maxWordLen (ex.word_ids.length + 2)
    let maxEntityLen2 := max maxEntityLen ex.entity_ids.length
    if buf2.length = batchSize then
      mkBatchFromBuf buf2 maxWordLen2 maxEntityLen2 :: runLoop batchSize wf ef rest [] 1 1
    else
      runLoop batchSize wf ef rest buf2 maxWordLen2 maxEntityLen2

/-- `BaseBatchWorker.run` over a finite example stream (the stream ending
models both source exhaustion and the source raising: in either case the loop
stops and whatever is buffered is never emitted). -/
def workerRun (batchSize : ℕ) (wf ef : ExampleIn → List (String × Arr))
    (examples : List ExampleIn) : List (List (String × List Arr)) :=
  runLoop batchSize wf ef examples [] 1 1

/-- `LukePretrainingBatchWorker`'s run: the base loop with the concrete word
and `default`-variant entity feature methods. -/
def lukeWorkerRun (cfg : WorkerCfg) (cont : ℤ → Bool) (batchSize : ℕ)
    (examples : List ExampleIn) : List (List (String × List Arr)) :=
  workerRun batchSize (wordFeatureDict cfg cont) (entityFeatureDict cfg) examples

/-- The worker class selected by `LukePretrainingBatchGenerator.__init__`. -/
inductive WorkerCls
  | defaultWorker
  | e2eWorker
deriving DecidableEq

/-- The `mode` dispatch of `LukePretrainingBatchGenerator.__init__`: pick the
worker class or raise `RuntimeError` for any other mode.  This runs in the
constructor, before `generate_batches` creates or starts any worker process. -/
def selectWorkerCls (mode : String) : Except String WorkerCls :=
  if mode = "default" then .ok .defaultWorker
  else if mode = "e2e" then .ok .e2eWorker
  else .error ("Unsupported mode: " ++ mode)

example : selectWorkerCls "default" = .ok .defaultWorker := rfl
example : selectWorkerCls "e2e" = .ok .e2eWorker := rfl
example : (selectWorkerCls "bogus").isOk = false := by decide

/-- Liveness of the worker process owned by `generate_batches`. -/
inductive WorkerState
  | alive
  | dead
deriving DecidableEq

/-- State of the bounded hand-off queue owned by `generate_batches`. -/
inductive ChannelState
  | opened
  | closed
deriving DecidableEq

/-- The resources `generate_batches` must release in its `finally` block. -/
structure TeardownState where
  worker : WorkerState
  channel : ChannelState
deriving DecidableEq

/-- Modelled from the spec: `worker.terminate()` is library code
(`multiprocessing.Process`) not under src/; per the spec's failure taxonomy a
terminate on an already-dead process is a cleanup failure. -/
def terminateRaw (s : TeardownState) : Except String TeardownState :=
  match s.worker with
  | .alive => .ok { s with worker := .dead }
  | .dead => .error "process already dead"

/-- Modelled from the spec: `output_queue.close()` is library code
(`multiprocessing.Queue`) not under src/; per the spec's failure taxonomy a
close on an already-closed channel is a cleanup failure. -/
def closeRaw (s : TeardownState) : Except String TeardownState :=
  match s.channel with
  | .opened => .ok { s with channel := .closed }
  | .closed => .error "channel already closed"

/-- Modelled from the spec: teardown is best-effort — a failure of a cleanup
step is suppressed, leaving the state as it was before that step. -/
def bestEffort (f : TeardownState → Except String TeardownState)
    (s : TeardownState) : TeardownState :=
  match f s with
  | .ok t => t
  | .error _ => s

/-- Modelled from the spec: the `finally` block of `generate_batches` —
terminate the worker, then close the channel, each best-effort; the result is
`.ok` precisely because every cleanup failure is suppressed. -/
def teardown (s : TeardownState) : Except String TeardownState :=
  .ok (bestEffort closeRaw (bestEffort terminateRaw s))

example : teardown ⟨.dead, .closed⟩ = .ok ⟨.dead, .closed⟩ := rfl
example : teardown ⟨.alive, .opened⟩ = .ok ⟨.dead, .closed⟩ := rfl

/- ## Generic list lemmas -/

theorem copyInto_length {α : Type} (dst src : List α) :
    (copyInto dst src).length = dst.length := by
  simp only [copyInto, List.length_append, List.length_take, List.length_drop]
  omega

theorem copyInto_of_le {α : Type} (dst src : List α) (h : src.length ≤ dst.length) :
    copyInto dst src = src ++ dst.drop src.length := by
  unfold copyInto
  rw [List.take_of_length_le h]

theorem getD_set_self {α : Type} (l : List α) (i : ℕ) (v d : α) (h : i < l.length) :
    (l.set i v).getD i d = v := by
  rw [List.getD_eq_getElem _ _ (by simpa using h)]
  exact List.getElem_set_self _

theorem getD_set_ne {α : Type} (l : List α) (i j : ℕ) (v d : α) (h : i ≠ j) :
    (l.set i v).getD j d = l.getD j d := by
  by_cases hj : j < l.length
  · rw [List.getD_eq_getElem _ _ (by simpa using hj), List.getD_eq_getElem _ _ hj]
    exact List.getElem_set_ne h _
  · rw [List.getD_eq_default _ _ (by simpa using le_of_not_lt hj),
      List.getD_eq_default _ _ (le_of_not_lt hj)]

theorem getD_replicate_self {α : Type} (n j : ℕ) (x : α) :
    (List.replicate n x).getD j x = x := by
  by_cases hj : j < n
  · rw [List.getD_eq_getElem _ _ (by simpa using hj)]
    exact List.getElem_replicate _ _
  · exact List.getD_eq_default _ _ (by simpa using le_of_not_lt hj)

theorem labelCount_replicate_sentinel (n : ℕ) :
    labelCount (List.replicate n (-1)) = 0 := by
  simp [labelCount, List.countP_replicate]

theorem labelCount_set_le (l : List ℤ) (i : ℕ) (v : ℤ) :
    labelCount (l.set i v) ≤ labelCount l + 1 := by
  by_cases h : i < l.length
  · rw [labelCount, labelCount, List.countP_set _ _ _ _ h]
    split <;> split <;> omega
  · rw [List.set_eq_of_length_le (le_of_not_lt h)]
    omega

theorem labelCount_set_fresh (l : List ℤ) (i : ℕ) (v : ℤ) (h : i < l.length)
    (hold : l.getD i (-1) = -1) (hv : v ≠ -1) :
    labelCount (l.set i v) = labelCount l + 1 := by
  rw [List.getD_eq_getElem _ _ h] at hold
  rw [labelCount, labelCount, List.countP_set _ _ _ _ h]
  simp [hold, hv]

theorem dropLast_append_getLastD {α : Type} :
    ∀ (gs : List α) (d : α), gs ≠ [] → gs.dropLast ++ [gs.getLastD d] = gs := by
  intro gs
  induction gs with
  | nil => intro d h; exact absurd rfl h
  | cons a t ih =>
    intro d _
    cases t with
    | nil => rfl
    | cons b u =>
      have h2 : (b :: u : List α) ≠ [] := by simp
      calc (a :: b :: u).dropLast ++ [(a :: b :: u).getLastD d]
          = a :: ((b :: u).dropLast ++ [(b :: u).getLastD a]) := by
            simp [List.dropLast, List.getLastD]
        _ = a :: b :: u := by rw [ih a h2]

/- ## Structure of the masking candidate groups -/

theorem wwmStep_flatten (whole : Bool) (cont : ℤ → Bool) (gs : List (List ℕ))
    (p : ℕ × ℤ) : (wwmStep whole cont gs p).flatten = gs.flatten ++ [p.1] := by
  unfold wwmStep
  split
  · rename_i h
    have hne : gs ≠ [] := by
      rcases Bool.and_eq_true_iff.mp h with ⟨_, h2⟩
      simpa [List.isEmpty_iff] using h2
    conv_rhs => rw [← dropLast_append_getLastD gs [] hne]
    simp [List.flatten_append]
  · simp [List.flatten_append]

theorem foldl_wwmStep_flatten (whole : Bool) (cont : ℤ → Bool) :
    ∀ (pairs : List (ℕ × ℤ)) (acc : List (List ℕ)),
      (pairs.foldl (wwmStep whole cont) acc).flatten = acc.flatten ++ pairs.map Prod.fst := by
  intro pairs
  induction pairs with
  | nil => intro acc; simp
  | cons p ps ih =>
    intro acc
    rw [List.foldl_cons, ih, wwmStep_flatten]
    simp

theorem buildGroups_flatten (whole : Bool) (cont : ℤ → Bool) (wordIds : List ℤ) :
    (buildGroups whole cont wordIds).flatten = List.range' 1 wordIds.length := by
  unfold buildGroups
  rw [foldl_wwmStep_flatten, List.enumFrom_map_fst]
  rfl

theorem foldl_wwmStep_ne_nil (whole : Bool) (cont : ℤ → Bool) :
    ∀ (pairs : List (ℕ × ℤ)) (acc : List (List ℕ)), (∀ g ∈ acc, g ≠ []) →
      ∀ g ∈ pairs.foldl (wwmStep whole cont) acc, g ≠ [] := by
  intro pairs
  induction pairs with
  | nil => intro acc hacc; simpa using hacc
  | cons p ps ih =>
    intro acc hacc
    rw [List.foldl_cons]
    refine ih _ ?_
    intro g hg
    unfold wwmStep at hg
    split at hg
    · rcases List.mem_append.mp hg with h | h
      · exact hacc g ((List.dropLast_sublist acc).subset h)
      · rcases List.mem_singleton.mp h with rfl
        simp
    · rcases List.mem_append.mp hg with h | h
      · exact hacc g h
      · rcases List.mem_singleton.mp h with rfl
        simp

theorem buildGroups_ne_nil (whole : Bool) (cont : ℤ → Bool) (wordIds : List ℤ) :
    ∀ g ∈ buildGroups whole cont wordIds, g ≠ [] := by
  unfold buildGroups
  exact foldl_wwmStep_ne_nil whole cont _ [] (by simp)

theorem foldl_wwmStep_not_whole (cont : ℤ → Bool) :
    ∀ (pairs : List (ℕ × ℤ)) (acc : List (List ℕ)),
      pairs.foldl (wwmStep false cont) acc = acc ++ pairs.map (fun p => [p.1]) := by
  intro pairs
  induction pairs with
  | nil => intro acc; simp
  | cons p ps ih =>
    intro acc
    rw [List.foldl_cons, ih]
    simp [wwmStep]

theorem buildGroups_not_whole (cont : ℤ → Bool) (wordIds : List ℤ) :
    buildGroups false cont wordIds =
      (List.range' 1 wordIds.length).map (fun j => [j]) := by
  unfold buildGroups
  rw [foldl_wwmStep_not_whole]
  have : (List.enumFrom 1 wordIds).map (fun p => [p.1]) =
      ((List.enumFrom 1 wordIds).map Prod.fst).map (fun j => [j]) := by
    rw [List.map_map]
    rfl
  simp only [List.nil_append, this, List.enumFrom_map_fst]

theorem buildGroups_nodup_flatten (whole : Bool) (cont : ℤ → Bool) (wordIds : List ℤ) :
    (buildGroups whole cont wordIds).flatten.Nodup := by
  rw [buildGroups_flatten]
  exact List.nodup_range' 1 wordIds.length

theorem buildGroups_mem_bounds (whole : Bool) (cont : ℤ → Bool) (wordIds : List ℤ)
    (g : List ℕ) (hg : g ∈ buildGroups whole cont wordIds) (j : ℕ) (hj : j ∈ g) :
    1 ≤ j ∧ j < wordIds.length + 1 := by
  have : j ∈ (buildGroups whole cont wordIds).flatten := List.mem_flatten.mpr ⟨g, hg, hj⟩
  rw [buildGroups_flatten] at this
  have := List.mem_range'_1.mp this
  omega

/- ## Behaviour of the masking loops -/

theorem maskIndices_labels_length (maskId : ℤ) (acts : ℕ → MaskAction) :
    ∀ (l : List ℕ) (s : MaskState),
      (maskIndices maskId acts l s).labels.length = s.labels.length := by
  intro l
  induction l with
  | nil => intro s; rfl
  | cons i rest ih =>
    intro s
    simp only [maskIndices, ih, List.length_set]

theorem maskIndices_out_length (maskId : ℤ) (acts : ℕ → MaskAction) :
    ∀ (l : List ℕ) (s : MaskState),
      (maskIndices maskId acts l s).out.length = s.out.length := by
  intro l
  induction l with
  | nil => intro s; rfl
  | cons i rest ih =>
    intro s
    simp only [maskIndices, ih, List.length_set]

theorem maskIndices_budget (maskId : ℤ) (acts : ℕ → MaskAction) :
    ∀ (l : List ℕ) (s : MaskState),
      (maskIndices maskId acts l s).budget = s.budget - l.length := by
  intro l
  induction l with
  | nil => intro s; simp [maskIndices]
  | cons i rest ih =>
    intro s
    simp only [maskIndices, ih, List.length_cons]
    omega

theorem maskIndices_labels_not_mem (maskId : ℤ) (acts : ℕ → MaskAction) :
    ∀ (l : List ℕ) (s : MaskState) (j : ℕ) (d : ℤ), j ∉ l →
      (maskIndices maskId acts l s).labels.getD j d = s.labels.getD j d := by
  intro l
  induction l with
  | nil => intro s j d _; rfl
  | cons i rest ih =>
    intro s j d hj
    have hji : i ≠ j := fun h => hj (h ▸ List.mem_cons_self i rest)
    have hjr : j ∉ rest := fun h => hj (List.mem_cons_of_mem i h)
    simp only [maskIndices, ih _ _ _ hjr, getD_set_ne _ _ _ _ _ hji]

theorem maskIndices_out_not_mem (maskId : ℤ) (acts : ℕ → MaskAction) :
    ∀ (l : List ℕ) (s : MaskState) (j : ℕ) (d : ℤ), j ∉ l →
      (maskIndices maskId acts l s).out.getD j d = s.out.getD j d := by
  intro l
  induction l with
  | nil => intro s j d _; rfl
  | cons i rest ih =>
    intro s j d hj
    have hji : i ≠ j := fun h => hj (h ▸ List.mem_cons_self i rest)
    have hjr : j ∉ rest := fun h => hj (List.mem_cons_of_mem i h)
    simp only [maskIndices, ih _ _ _ hjr, getD_set_ne _ _ _ _ _ hji]

theorem maskIndices_labels_write (maskId : ℤ) (acts : ℕ → MaskAction) :
    ∀ (l : List ℕ) (s : MaskState), l.Nodup →
      ∀ j ∈ l, j < s.labels.length →
        (maskIndices maskId acts l s).labels.getD j (-1) = s.out.getD j 0 := by
  intro l
  induction l with
  | nil => intro s _ j hj; exact absurd hj (List.not_mem_nil j)
  | cons i rest ih =>
    intro s hnd j hj hlen
    rcases List.nodup_cons.mp hnd with ⟨hir, hndr⟩
    rcases List.mem_cons.mp hj with rfl | hjrest
    · simp only [maskIndices]
      rw [maskIndices_labels_not_mem _ _ _ _ _ _ hir]
      exact getD_set_self _ _ _ _ hlen
    · have hij : i ≠ j := fun h => hir (h ▸ hjrest)
      simp only [maskIndices]
      rw [ih _ hndr j hjrest (by simpa [List.length_set] using hlen)]
      exact getD_set_ne _ _ _ _ _ hij

theorem maskIndices_labelCount_le (maskId : ℤ) (acts : ℕ → MaskAction) :
    ∀ (l : List ℕ) (s : MaskState),
      labelCount (maskIndices maskId acts l s).labels ≤
        labelCount s.labels + l.length := by
  intro l
  induction l with
  | nil => intro s; simp [maskIndices]
  | cons i rest ih =>
    intro s
    simp only [maskIndices, List.length_cons]
    calc labelCount (maskIndices maskId acts rest _).labels
        ≤ labelCount (s.labels.set i (s.out.getD i 0)) + rest.length := ih _
      _ ≤ labelCount s.labels + (rest.length + 1) := by
          have := labelCount_set_le s.labels i (s.out.getD i 0)
          omega

theorem maskLoop_labels_length (groups : List (List ℕ)) (maskId : ℤ)
    (acts : ℕ → MaskAction) :
    ∀ (perm : List ℕ) (s : MaskState),
      (maskLoop groups maskId acts perm s).labels.length = s.labels.length := by
  intro perm
  induction perm with
  | nil => intro s; rfl
  | cons i rest ih =>
    intro s
    simp only [maskLoop]
    split
    · exact ih s
    · split
      · exact maskIndices_labels_length _ _ _ _
      · rw [ih, maskIndices_labels_length]

theorem maskLoop_out_length (groups : List (List ℕ)) (maskId : ℤ)
    (acts : ℕ → MaskAction) :
    ∀ (perm : List ℕ) (s : MaskState),
      (maskLoop groups maskId acts perm s).out.length = s.out.length := by
  intro perm
  induction perm with
  | nil => intro s; rfl
  | cons i rest ih =>
    intro s
    simp only [maskLoop]
    split
    · exact ih s
    · split
      · exact maskIndices_out_length _ _ _ _
      · rw [ih, maskIndices_out_length]

theorem maskLoop_labelCount_le (groups : List (List ℕ)) (maskId : ℤ)
    (acts : ℕ → MaskAction) :
    ∀ (perm : List ℕ) (s : MaskState),
      labelCount (maskLoop groups maskId acts perm s).labels +
        (maskLoop groups maskId acts perm s).budget ≤
      labelCount s.labels + s.budget := by
  intro perm
  induction perm with
  | nil => intro s; simp [maskLoop]
  | cons i rest ih =>
    intro s
    simp only [maskLoop]
    split
    · exact ih s
    · rename_i hfit
      have hfit2 : (groups.getD i []).length ≤ s.budget := le_of_not_lt hfit
      have hcount := maskIndices_labelCount_le maskId acts (groups.getD i []) s
      have hbudget := maskIndices_budget maskId acts (groups.getD i []) s
      split
      · omega
      · have := ih (maskIndices maskId acts (groups.getD i []) s)
        omega

theorem maskLoop_labels_not_mem (groups : List (List ℕ)) (maskId : ℤ)
    (acts : ℕ → MaskAction) :
    ∀ (perm : List ℕ) (s : MaskState) (j : ℕ) (d : ℤ),
      (∀ i ∈ perm, j ∉ groups.getD i []) →
      (maskLoop groups maskId acts perm s).labels.getD j d = s.labels.getD j d := by
  intro perm
  induction perm with
  | nil => intro s j d _; rfl
  | cons i rest ih =>
    intro s j d hj
    have hji : j ∉ groups.getD i [] := hj i (List.mem_cons_self i rest)
    have hjr : ∀ i2 ∈ rest, j ∉ groups.getD i2 [] :=
      fun i2 h2 => hj i2 (List.mem_cons_of_mem i h2)
    simp only [maskLoop]
    split
    · exact ih s j d hjr
    · split
      · exact maskIndices_labels_not_mem _ _ _ _ _ _ hji
      · rw [ih _ j d hjr, maskIndices_labels_not_mem _ _ _ _ _ _ hji]

theorem maskLoop_out_not_mem (groups : List (List ℕ)) (maskId : ℤ)
    (acts : ℕ → MaskAction) :
    ∀ (perm : List ℕ) (s : MaskState) (j : ℕ) (d : ℤ),
      (∀ i ∈ perm, j ∉ groups.getD i []) →
      (maskLoop groups maskId acts perm s).out.getD j d = s.out.getD j d := by
  intro perm
  induction perm with
  | nil => intro s j d _; rfl
  | cons i rest ih =>
    intro s j d hj
    have hji : j ∉ groups.getD i [] := hj i (List.mem_cons_self i rest)
    have hjr : ∀ i2 ∈ rest, j ∉ groups.getD i2 [] :=
      fun i2 h2 => hj i2 (List.mem_cons_of_mem i h2)
    simp only [maskLoop]
    split
    · exact ih s j d hjr
    · split
      · exact maskIndices_out_not_mem _ _ _ _ _ _ hji
      · rw [ih _ j d hjr, maskIndices_out_not_mem _ _ _ _ _ _ hji]

theorem groups_getD_disjoint (groups : List (List ℕ))
    (hnd : groups.flatten.Nodup) (t i : ℕ) (ht : t < groups.length) (hne : i ≠ t) :
    ∀ j ∈ groups.getD t [], j ∉ groups.getD i [] := by
  intro j hjt hji
  by_cases hi : i < groups.length
  · rw [List.getD_eq_getElem _ _ ht] at hjt
    rw [List.getD_eq_getElem _ _ hi] at hji
    have hpw := (List.nodup_flatten.mp hnd).2
    rw [List.pairwise_iff_getElem] at hpw
    rcases Nat.lt_or_ge i t with hlt | hge
    · exact (hpw i t hi ht hlt) hji hjt
    · have hlt2 : t < i := lt_of_le_of_ne hge (fun h => hne h.symm)
      exact (hpw t i ht hi hlt2) hjt hji
  · rw [List.getD_eq_default _ _ (le_of_not_lt hi)] at hji
    exact List.not_mem_nil j hji

theorem groups_getD_nodup (groups : List (List ℕ))
    (hnd : groups.flatten.Nodup) (t : ℕ) : (groups.getD t []).Nodup := by
  by_cases ht : t < groups.length
  · rw [List.getD_eq_getElem _ _ ht]
    exact (List.nodup_flatten.mp hnd).1 _ (List.getElem_mem ht)
  · rw [List.getD_eq_default _ _ (le_of_not_lt ht)]
    exact List.nodup_nil

theorem maskLoop_group_all_or_none (groups : List (List ℕ)) (maskId : ℤ)
    (acts : ℕ → MaskAction) (hnd : groups.flatten.Nodup) (t : ℕ)
    (ht : t < groups.length) :
    ∀ (perm : List ℕ) (s : MaskState), perm.Nodup →
      (∀ j ∈ groups.getD t [],
        s.labels.getD j (-1) = -1 ∧ 0 ≤ s.out.getD j 0 ∧ j < s.labels.length) →
      (∀ j ∈ groups.getD t [],
         (maskLoop groups maskId acts perm s).labels.getD j (-1) = -1) ∨
      (∀ j ∈ groups.getD t [],
         (maskLoop groups maskId acts perm s).labels.getD j (-1) ≠ -1) := by
  intro perm
  induction perm with
  | nil =>
    intro s _ inv
    left
    intro j hj
    exact (inv j hj).1
  | cons i rest ih =>
    intro s hndp inv
    rcases List.nodup_cons.mp hndp with ⟨hir, hndr⟩
    by_cases hit : i = t
    · subst hit
      simp only [maskLoop]
      split
      · exact ih s hndr inv
      · have hwrite : ∀ j ∈ groups.getD i [],
            (maskIndices maskId acts (groups.getD i []) s).labels.getD j (-1) ≠ -1 := by
          intro j hj
          rw [maskIndices_labels_write maskId acts _ s
            (groups_getD_nodup groups hnd i) j hj (inv j hj).2.2]
          have := (inv j hj).2.1
          omega
        split
        · right
          exact hwrite
        · right
          intro j hj
          rw [maskLoop_labels_not_mem groups maskId acts rest _ j (-1) ?_]
          · exact hwrite j hj
          · intro i2 hi2
            have hne : i2 ≠ i := fun h => hir (h ▸ hi2)
            exact groups_getD_disjoint groups hnd i i2 ht hne j hj
    · have hdisj : ∀ j ∈ groups.getD t [], j ∉ groups.getD i [] :=
        groups_getD_disjoint groups hnd t i ht hit
      simp only [maskLoop]
      split
      · exact ih s hndr inv
      · split
        · left
          intro j hj
          rw [maskIndices_labels_not_mem _ _ _ _ _ _ (hdisj j hj)]
          exact (inv j hj).1
        · refine ih _ hndr ?_
          intro j hj
          refine ⟨?_, ?_, ?_⟩
          · rw [maskIndices_labels_not_mem _ _ _ _ _ _ (hdisj j hj)]
            exact (inv j hj).1
          · rw [maskIndices_out_not_mem _ _ _ _ _ _ (hdisj j hj)]
            exact (inv j hj).2.1
          · rw [maskIndices_labels_length]
            exact (inv j hj).2.2

theorem singleton_groups_getD (n i : ℕ) (hi : i < n) :
    (((List.range' 1 n).map (fun j => [j])).getD i []) = [i + 1] := by
  have hlen : i < ((List.range' 1 n).map (fun j => [j])).length := by
    simpa using hi
  rw [List.getD_eq_getElem _ _ hlen, List.getElem_map, List.getElem_range']
  simp [Nat.add_comm]

theorem maskLoop_singleton_count (n : ℕ) (maskId : ℤ) (acts : ℕ → MaskAction) :
    ∀ (perm : List ℕ) (s : MaskState), perm.Nodup → (∀ i ∈ perm, i < n) →
      (∀ i ∈ perm, s.labels.getD (i + 1) (-1) = -1 ∧ 0 ≤ s.out.getD (i + 1) 0 ∧
        i + 1 < s.labels.length) →
      labelCount (maskLoop ((List.range' 1 n).map (fun j => [j])) maskId acts perm s).labels
        = labelCount s.labels + min s.budget perm.length := by
  intro perm
  induction perm with
  | nil =>
    intro s _ _ _
    simp [maskLoop]
  | cons i rest ih =>
    intro s hndp hbound inv
    rcases List.nodup_cons.mp hndp with ⟨hir, hndr⟩
    have hboundr : ∀ i2 ∈ rest, i2 < n := fun i2 h => hbound i2 (List.mem_cons_of_mem i h)
    have hgi := singleton_groups_getD n i (hbound i (List.mem_cons_self i rest))
    have hinvi := inv i (List.mem_cons_self i rest)
    simp only [maskLoop, hgi]
    split
    · rename_i hgt
      have hb0 : s.budget = 0 := by
        simp only [List.length_cons, List.length_nil] at hgt
        omega
      rw [ih s hndr hboundr (fun i2 h => inv i2 (List.mem_cons_of_mem i h))]
      rw [hb0]
      simp
    · rename_i hle
      have hb1 : 1 ≤ s.budget := by
        simp only [List.length_cons, List.length_nil] at hle
        omega
      have hs2 : maskIndices maskId acts [i + 1] s =
          ⟨s.out.set (i + 1) (applyMask maskId (s.out.getD (i + 1) 0) (acts s.draw)),
           s.labels.set (i + 1) (s.out.getD (i + 1) 0), s.budget - 1, s.draw + 1⟩ := rfl
      have hvne : s.out.getD (i + 1) 0 ≠ -1 := by
        have := hinvi.2.1
        omega
      have hcount2 : labelCount (maskIndices maskId acts [i + 1] s).labels =
          labelCount s.labels + 1 := by
        rw [hs2]
        exact labelCount_set_fresh _ _ _ hinvi.2.2 hinvi.1 hvne
      split
      · rename_i hb0
        rw [hs2] at hb0
        simp only at hb0
        have hbeq : s.budget = 1 := by omega
        rw [hcount2, hbeq]
        have : min 1 (rest.length + 1) = 1 := by omega
        simp only [List.length_cons, this]
      · rename_i hbne
        rw [hs2] at hbne
        simp only at hbne
        have hb2 : 2 ≤ s.budget := by omega
        rw [ih (maskIndices maskId acts [i + 1] s) hndr hboundr ?_]
        · rw [hcount2, hs2]
          simp only [List.length_cons]
          omega
        · intro i2 h2
          have hne : i + 1 ≠ i2 + 1 := by
            intro h
            have heq : i = i2 := by omega
            exact hir (heq ▸ h2)
          rw [hs2]
          refine ⟨?_, ?_, ?_⟩
          · simp only
            rw [getD_set_ne _ _ _ _ _ hne]
            exact (inv i2 (List.mem_cons_of_mem i h2)).1
          · simp only
            rw [getD_set_ne _ _ _ _ _ hne]
            exact (inv i2 (List.mem_cons_of_mem i h2)).2.1
          · simp only [List.length_set]
            exact (inv i2 (List.mem_cons_of_mem i h2)).2.2

/- ## Unfolding createWordFeatures -/

/-- Initial state of the word-masking loop: the padded output ids, an
all-sentinel label array, and the full `num_to_predict` budget. -/
def maskInit (cfg : WorkerCfg) (wordIds : List ℤ) : MaskState :=
  ⟨copyInto (List.replicate cfg.maxSeqLength (0 : ℤ)) (cfg.clsId :: (wordIds ++ [cfg.sepId])),
   List.replicate cfg.maxSeqLength (-1),
   max 1 (probRound wordIds.length cfg.maskedLmProb), 0⟩

theorem createWordFeatures_zero (cfg : WorkerCfg) (cont : ℤ → Bool) (perm : List ℕ)
    (acts : ℕ → MaskAction) (wordIds : List ℤ) (hp : cfg.maskedLmProb.num = 0) :
    createWordFeatures cfg cont perm acts wordIds =
      ⟨copyInto (List.replicate cfg.maxSeqLength (0 : ℤ))
         (cfg.clsId :: (wordIds ++ [cfg.sepId])),
       copyInto (List.replicate cfg.maxSeqLength (0 : ℤ))
         (List.replicate (wordIds.length + 2) (1 : ℤ)),
       List.replicate cfg.maxSeqLength 0, none⟩ := by
  simp [createWordFeatures, hp]

theorem createWordFeatures_pos (cfg : WorkerCfg) (cont : ℤ → Bool) (perm : List ℕ)
    (acts : ℕ → MaskAction) (wordIds : List ℤ) (hp : cfg.maskedLmProb.num ≠ 0) :
    createWordFeatures cfg cont perm acts wordIds =
      ⟨(maskLoop (buildGroups cfg.wholeWordMasking cont wordIds) cfg.maskId acts perm
          (maskInit cfg wordIds)).out,
       copyInto (List.replicate cfg.maxSeqLength (0 : ℤ))
         (List.replicate (wordIds.length + 2) (1 : ℤ)),
       List.replicate cfg.maxSeqLength 0,
       some (maskLoop (buildGroups cfg.wholeWordMasking cont wordIds) cfg.maskId acts perm
          (maskInit cfg wordIds)).labels⟩ := by
  simp [createWordFeatures, maskInit, hp]

/- ## The padded initial arrays -/

theorem paddedWordIds_length (cfg : WorkerCfg) (wordIds : List ℤ) :
    (maskInit cfg wordIds).out.length = cfg.maxSeqLength := by
  show (copyInto (List.replicate cfg.maxSeqLength (0 : ℤ))
      (cfg.clsId :: (wordIds ++ [cfg.sepId]))).length = cfg.maxSeqLength
  rw [copyInto_length]
  simp

theorem maskInit_labels_length (cfg : WorkerCfg) (wordIds : List ℤ) :
    (maskInit cfg wordIds).labels.length = cfg.maxSeqLength := by
  simp [maskInit]

theorem maskInit_labels_getD (cfg : WorkerCfg) (wordIds : List ℤ) (j : ℕ) :
    (maskInit cfg wordIds).labels.getD j (-1) = -1 :=
  getD_replicate_self _ _ _

theorem paddedWordIds_getD_cls (cfg : WorkerCfg) (wordIds : List ℤ)
    (h1 : wordIds.length + 2 ≤ cfg.maxSeqLength) :
    (maskInit cfg wordIds).out.getD 0 0 = cfg.clsId := by
  show (copyInto (List.replicate cfg.maxSeqLength (0 : ℤ))
      (cfg.clsId :: (wordIds ++ [cfg.sepId]))).getD 0 0 = cfg.clsId
  rw [copyInto_of_le _ _ (by simp; omega)]
  rw [List.getD_append _ _ _ _ (by simp)]
  exact List.getD_cons_zero

theorem paddedWordIds_getD_sep (cfg : WorkerCfg) (wordIds : List ℤ)
    (h1 : wordIds.length + 2 ≤ cfg.maxSeqLength) :
    (maskInit cfg wordIds).out.getD (wordIds.length + 1) 0 = cfg.sepId := by
  show (copyInto (List.replicate cfg.maxSeqLength (0 : ℤ))
      (cfg.clsId :: (wordIds ++ [cfg.sepId]))).getD (wordIds.length + 1) 0 = cfg.sepId
  rw [copyInto_of_le _ _ (by simp; omega)]
  rw [List.getD_append _ _ _ _ (by simp)]
  rw [List.getD_cons_succ]
  rw [List.getD_append_right _ _ _ _ (le_refl _)]
  simp

theorem paddedWordIds_getD_word (cfg : WorkerCfg) (wordIds : List ℤ) (i : ℕ)
    (h1 : wordIds.length + 2 ≤ cfg.maxSeqLength) (hi : i < wordIds.length) :
    (maskInit cfg wordIds).out.getD (i + 1) 0 = wordIds.getD i 0 := by
  show (copyInto (List.replicate cfg.maxSeqLength (0 : ℤ))
      (cfg.clsId :: (wordIds ++ [cfg.sepId]))).getD (i + 1) 0 = wordIds.getD i 0
  rw [copyInto_of_le _ _ (by simp; omega)]
  rw [List.getD_append _ _ _ _ (by simp; omega)]
  rw [List.getD_cons_succ]
  rw [List.getD_append _ _ _ _ hi]

theorem groups_getD_mem_bounds (whole : Bool) (cont : ℤ → Bool) (wordIds : List ℤ)
    (i j : ℕ) (hj : j ∈ (buildGroups whole cont wordIds).getD i []) :
    1 ≤ j ∧ j < wordIds.length + 1 := by
  by_cases hi : i < (buildGroups whole cont wordIds).length
  · rw [List.getD_eq_getElem _ _ hi] at hj
    exact buildGroups_mem_bounds whole cont wordIds _ (List.getElem_mem hi) j hj
  · rw [List.getD_eq_default _ _ (le_of_not_lt hi)] at hj
    exact absurd hj (List.not_mem_nil j)

theorem maskInit_out_nonneg (cfg : WorkerCfg) (wordIds : List ℤ)
    (h1 : wordIds.length + 2 ≤ cfg.maxSeqLength) (hids : ∀ x ∈ wordIds, 0 ≤ x)
    (j : ℕ) (hj1 : 1 ≤ j) (hj2 : j < wordIds.length + 1) :
    0 ≤ (maskInit cfg wordIds).out.getD j 0 := by
  have hlt : j - 1 < wordIds.length := by omega
  have heq : j - 1 + 1 = j := by omega
  rw [← heq, paddedWordIds_getD_word cfg wordIds (j - 1) h1 hlt]
  rw [List.getD_eq_getElem _ _ hlt]
  exact hids _ (List.getElem_mem hlt)

theorem probRound_le (n : ℕ) (p : Prob) (hden : 0 < p.den) (hle : p.num ≤ p.den) :
    probRound n p ≤ n := by
  simp only [probRound]
  set t := n * p.num with htdef
  set m := t % p.den with hmdef
  set f := t / p.den with hfdef
  have ht : t ≤ p.den * n := by
    rw [htdef, Nat.mul_comm p.den n]
    exact Nat.mul_le_mul_left n hle
  have hdm : p.den * f + m = t := Nat.div_add_mod t p.den
  have hf : f ≤ n := by
    have h2 := Nat.div_le_div_right (c := p.den) ht
    rwa [Nat.mul_div_cancel_left n hden] at h2
  have hstrict : m ≠ 0 → f < n := by
    intro hm
    rcases Nat.lt_or_ge f n with h | h
    · exact h
    · exfalso
      have h2 : p.den * n ≤ p.den * f := Nat.mul_le_mul_left _ h
      have c3 : t + m ≤ t := by
        calc t + m ≤ p.den * n + m := Nat.add_le_add_right ht m
          _ ≤ p.den * f + m := Nat.add_le_add_right h2 m
          _ = t := hdm
      have : m = 0 := by omega
      exact hm this
  split
  · exact hf
  · rename_i hnotlt
    split
    · rename_i hgt
      have hm : m ≠ 0 := by omega
      have := hstrict hm
      omega
    · rename_i hnotgt
      have hm : m ≠ 0 := by omega
      have := hstrict hm
      split
      · exact hf
      · omega

/- ## Claim theorems: word features -/

theorem attention_mask_eq (cfg : WorkerCfg) (wordIds : List ℤ)
    (h1 : wordIds.length + 2 ≤ cfg.maxSeqLength) :
    copyInto (List.replicate cfg.maxSeqLength (0 : ℤ))
        (List.replicate (wordIds.length + 2) (1 : ℤ)) =
      List.replicate (wordIds.length + 2) (1 : ℤ) ++
        List.replicate (cfg.maxSeqLength - (wordIds.length + 2)) (0 : ℤ) := by
  rw [copyInto_of_le _ _ (by simp; omega)]
  rw [List.length_replicate, List.drop_replicate]

/-- C7: for every word-id sequence that fits the configured maximum, the
word features wrap the ids between the start and end marker: the attention
mask sums to `word_count + 2`, `word_ids[0]` is the start marker and
`word_ids[word_count + 1]` the end marker, the attention mask is `1` exactly
on positions `0 .. word_count + 1` and `0` afterwards, and the segment ids
are all zero. -/
theorem c7_word_feature_shape (cfg : WorkerCfg) (cont : ℤ → Bool) (perm : List ℕ)
    (acts : ℕ → MaskAction) (wordIds : List ℤ)
    (h1 : wordIds.length + 2 ≤ cfg.maxSeqLength) :
    (createWordFeatures cfg cont perm acts wordIds).word_attention_mask.sum =
      (wordIds.length : ℤ) + 2 ∧
    (createWordFeatures cfg cont perm acts wordIds).word_ids.getD 0 0 = cfg.clsId ∧
    (createWordFeatures cfg cont perm acts wordIds).word_ids.getD
      (wordIds.length + 1) 0 = cfg.sepId ∧
    (∀ j, j < cfg.maxSeqLength →
      (createWordFeatures cfg cont perm acts wordIds).word_attention_mask.getD j 0 =
        if j < wordIds.length + 2 then 1 else 0) ∧
    (createWordFeatures cfg cont perm acts wordIds).word_segment_ids =
      List.replicate cfg.maxSeqLength 0 := by
  have hmask : (createWordFeatures cfg cont perm acts wordIds).word_attention_mask =
      List.replicate (wordIds.length + 2) (1 : ℤ) ++
        List.replicate (cfg.maxSeqLength - (wordIds.length + 2)) (0 : ℤ) := by
    by_cases hp : cfg.maskedLmProb.num = 0
    · rw [createWordFeatures_zero cfg cont perm acts wordIds hp]
      exact attention_mask_eq cfg wordIds h1
    · rw [createWordFeatures_pos cfg cont perm acts wordIds hp]
      exact attention_mask_eq cfg wordIds h1
  have hseg : (createWordFeatures cfg cont perm acts wordIds).word_segment_ids =
      List.replicate cfg.maxSeqLength 0 := by
    by_cases hp : cfg.maskedLmProb.num = 0
    · rw [createWordFeatures_zero cfg cont perm acts wordIds hp]
    · rw [createWordFeatures_pos cfg cont perm acts wordIds hp]
  have hout : ∀ j, (j = 0 ∨ j = wordIds.length + 1) →
      (createWordFeatures cfg cont perm acts wordIds).word_ids.getD j 0 =
        (maskInit cfg wordIds).out.getD j 0 := by
    intro j hj
    by_cases hp : cfg.maskedLmProb.num = 0
    · rw [createWordFeatures_zero cfg cont perm acts wordIds hp]
      rfl
    · rw [createWordFeatures_pos cfg cont perm acts wordIds hp]
      apply maskLoop_out_not_mem
      intro i _ hmem
      have hb := groups_getD_mem_bounds cfg.wholeWordMasking cont wordIds i j hmem
      omega
  refine ⟨?_, ?_, ?_, ?_, hseg⟩
  · rw [hmask, List.sum_append, List.sum_replicate, List.sum_replicate]
    simp
  · rw [hout 0 (Or.inl rfl)]
    exact paddedWordIds_getD_cls cfg wordIds h1
  · rw [hout (wordIds.length + 1) (Or.inr rfl)]
    exact paddedWordIds_getD_sep cfg wordIds h1
  · intro j hj
    rw [hmask]
    by_cases hjn : j < wordIds.length + 2
    · rw [List.getD_append _ _ _ _ (by simpa using hjn), if_pos hjn]
      rw [List.getD_eq_getElem _ _ (by simpa using hjn)]
      exact List.getElem_replicate _ _
    · rw [List.getD_append_right _ _ _ _ (by simpa using le_of_not_lt hjn), if_neg hjn]
      exact getD_replicate_self _ _ _

/-- C1: when `masked_lm_prob == 0` no `masked_lm_labels` field is produced;
when it is nonzero, the field is a length-`max_seq_length` array in which at
most `max(1, round(word_count * masked_lm_prob))` positions hold a value
other than `-1`, and every such position lies strictly between the
start-marker position `0` and the end-marker position `word_count + 1`. -/
theorem c1_masked_lm_labels_bound (cfg : WorkerCfg) (cont : ℤ → Bool)
    (perm : List ℕ) (acts : ℕ → MaskAction) (wordIds : List ℤ)
    (h1 : wordIds.length + 2 ≤ cfg.maxSeqLength) :
    (cfg.maskedLmProb.num = 0 →
      (createWordFeatures cfg cont perm acts wordIds).masked_lm_labels = none) ∧
    (cfg.maskedLmProb.num ≠ 0 →
      (createWordFeatures cfg cont perm acts wordIds).masked_lm_labels ≠ none ∧
      ((createWordFeatures cfg cont perm acts wordIds).masked_lm_labels.getD
        []).length = cfg.maxSeqLength ∧
      labelCount ((createWordFeatures cfg cont perm acts wordIds).masked_lm_labels.getD
        []) ≤ max 1 (probRound wordIds.length cfg.maskedLmProb) ∧
      (∀ j, ((createWordFeatures cfg cont perm acts wordIds).masked_lm_labels.getD
          []).getD j (-1) ≠ -1 → 0 < j ∧ j < wordIds.length + 1)) := by
  constructor
  · intro hp
    rw [createWordFeatures_zero cfg cont perm acts wordIds hp]
  · intro hp
    rw [createWordFeatures_pos cfg cont perm acts wordIds hp]
    simp only [Option.getD_some]
    refine ⟨by simp, ?_, ?_, ?_⟩
    · rw [maskLoop_labels_length, maskInit_labels_length]
    · have hcount := maskLoop_labelCount_le (buildGroups cfg.wholeWordMasking cont wordIds)
        cfg.maskId acts perm (maskInit cfg wordIds)
      have hinitcount : labelCount (maskInit cfg wordIds).labels = 0 :=
        labelCount_replicate_sentinel _
      have hinitbudget : (maskInit cfg wordIds).budget =
          max 1 (probRound wordIds.length cfg.maskedLmProb) := rfl
      omega
    · intro j hne
      by_contra hcon
      have hnot : ∀ i ∈ perm,
          j ∉ (buildGroups cfg.wholeWordMasking cont wordIds).getD i [] := by
        intro i _ hmem
        have hb := groups_getD_mem_bounds cfg.wholeWordMasking cont wordIds i j hmem
        exact hcon ⟨by omega, by omega⟩
      rw [maskLoop_labels_not_mem _ _ _ _ _ _ _ hnot, maskInit_labels_getD] at hne
      exact hne rfl

/-- C2: with whole-word masking enabled and a nonzero probability, every
candidate group (a token together with its word-continuation pieces) is
labeled atomically: all of its positions carry a label or none does. -/
theorem c2_whole_word_atomic (cfg : WorkerCfg) (cont : ℤ → Bool) (perm : List ℕ)
    (acts : ℕ → MaskAction) (wordIds : List ℤ)
    (hw : cfg.wholeWordMasking = true) (hp : cfg.maskedLmProb.num ≠ 0)
    (h1 : wordIds.length + 2 ≤ cfg.maxSeqLength) (hids : ∀ x ∈ wordIds, 0 ≤ x)
    (hperm : perm.Perm (List.range (buildGroups cfg.wholeWordMasking cont
      wordIds).length)) :
    ∀ g ∈ buildGroups cfg.wholeWordMasking cont wordIds,
      (∀ j ∈ g, ((createWordFeatures cfg cont perm acts
        wordIds).masked_lm_labels.getD []).getD j (-1) ≠ -1) ∨
      (∀ j ∈ g, ((createWordFeatures cfg cont perm acts
        wordIds).masked_lm_labels.getD []).getD j (-1) = -1) := by
  intro g hg
  obtain ⟨t, ht, hgt⟩ := List.getElem_of_mem hg
  have hgetD : (buildGroups cfg.wholeWordMasking cont wordIds).getD t [] = g := by
    rw [List.getD_eq_getElem _ _ ht, hgt]
  have hndperm : perm.Nodup := hperm.nodup_iff.mpr (List.nodup_range _)
  have hmain := maskLoop_group_all_or_none
    (buildGroups cfg.wholeWordMasking cont wordIds) cfg.maskId acts
    (buildGroups_nodup_flatten cfg.wholeWordMasking cont wordIds) t ht perm
    (maskInit cfg wordIds) hndperm ?_
  · rw [createWordFeatures_pos cfg cont perm acts wordIds hp]
    simp only [Option.getD_some]
    rw [hgetD] at hmain
    exact hmain.symm
  · intro j hj
    rw [hgetD] at hj
    have hb := buildGroups_mem_bounds cfg.wholeWordMasking cont wordIds g hg j hj
    refine ⟨maskInit_labels_getD cfg wordIds j, ?_, ?_⟩
    · exact maskInit_out_nonneg cfg wordIds h1 hids j hb.1 hb.2
    · rw [maskInit_labels_length]
      omega

/-- C10: with whole-word masking disabled, a nonzero probability at most one
(`num <= den`), and at least one word, every candidate group is a singleton,
so the budget is fully spent: the number of labeled positions is exactly
`max(1, round(word_count * masked_lm_prob))`. -/
theorem c10_disabled_wwm_exact_count (cfg : WorkerCfg) (cont : ℤ → Bool)
    (perm : List ℕ) (acts : ℕ → MaskAction) (wordIds : List ℤ)
    (hw : cfg.wholeWordMasking = false) (hp : cfg.maskedLmProb.num ≠ 0)
    (hle : cfg.maskedLmProb.num ≤ cfg.maskedLmProb.den)
    (hden : 0 < cfg.maskedLmProb.den)
    (hn : 1 ≤ wordIds.length) (h1 : wordIds.length + 2 ≤ cfg.maxSeqLength)
    (hids : ∀ x ∈ wordIds, 0 ≤ x)
    (hperm : perm.Perm (List.range (buildGroups cfg.wholeWordMasking cont
      wordIds).length)) :
    labelCount ((createWordFeatures cfg cont perm acts wordIds).masked_lm_labels.getD
      []) = max 1 (probRound wordIds.length cfg.maskedLmProb) := by
  have hgroups : buildGroups cfg.wholeWordMasking cont wordIds =
      (List.range' 1 wordIds.length).map (fun j => [j]) := by
    rw [hw]
    exact buildGroups_not_whole cont wordIds
  have hglen : (buildGroups cfg.wholeWordMasking cont wordIds).length =
      wordIds.length := by
    rw [hgroups]
    simp
  have hndperm : perm.Nodup := hperm.nodup_iff.mpr (List.nodup_range _)
  have hpermlen : perm.length = wordIds.length := by
    rw [hperm.length_eq, List.length_range, hglen]
  have hbound : ∀ i ∈ perm, i < wordIds.length := by
    intro i hi
    have := hperm.mem_iff.mp hi
    rw [List.mem_range, hglen] at this
    exact this
  rw [createWordFeatures_pos cfg cont perm acts wordIds hp]
  simp only [Option.getD_some]
  rw [hgroups]
  rw [maskLoop_singleton_count wordIds.length cfg.maskId acts perm
    (maskInit cfg wordIds) hndperm hbound ?_]
  · have hinitcount : labelCount (maskInit cfg wordIds).labels = 0 :=
      labelCount_replicate_sentinel _
    have hinitbudget : (maskInit cfg wordIds).budget =
        max 1 (probRound wordIds.length cfg.maskedLmProb) := rfl
    rw [hinitcount, hinitbudget, hpermlen]
    have hrle : probRound wordIds.length cfg.maskedLmProb ≤ wordIds.length :=
      probRound_le wordIds.length cfg.maskedLmProb hden hle
    omega
  · intro i hi
    have hilt := hbound i hi
    refine ⟨maskInit_labels_getD cfg wordIds (i + 1), ?_, ?_⟩
    · exact maskInit_out_nonneg cfg wordIds h1 hids (i + 1) (by omega) (by omega)
    · rw [maskInit_labels_length]
      omega

/- ## Concrete instances for witnesses -/

/-- A small concrete worker configuration (mode-independent part). -/
def cfgA : WorkerCfg :=
  ⟨8, 4, 2, 3, 101, 102, 103, 5, 30, ⟨15, 100⟩, ⟨15, 100⟩, false⟩

/-- The same configuration with whole-word masking enabled. -/
def cfgB : WorkerCfg :=
  { cfgA with wholeWordMasking := true }

theorem c1_masked_lm_labels_bound_witness :
    ([7, 8, 9] : List ℤ).length + 2 ≤ cfgA.maxSeqLength ∧
    ((cfgA.maskedLmProb.num = 0 →
      (createWordFeatures cfgA (fun _ => false) [1, 0, 2] (fun _ => .mask)
        [7, 8, 9]).masked_lm_labels = none) ∧
    (cfgA.maskedLmProb.num ≠ 0 →
      (createWordFeatures cfgA (fun _ => false) [1, 0, 2] (fun _ => .mask)
        [7, 8, 9]).masked_lm_labels ≠ none ∧
      ((createWordFeatures cfgA (fun _ => false) [1, 0, 2] (fun _ => .mask)
        [7, 8, 9]).masked_lm_labels.getD []).length = cfgA.maxSeqLength ∧
      labelCount ((createWordFeatures cfgA (fun _ => false) [1, 0, 2] (fun _ => .mask)
        [7, 8, 9]).masked_lm_labels.getD []) ≤
        max 1 (probRound ([7, 8, 9] : List ℤ).length cfgA.maskedLmProb) ∧
      (∀ j, ((createWordFeatures cfgA (fun _ => false) [1, 0, 2] (fun _ => .mask)
          [7, 8, 9]).masked_lm_labels.getD []).getD j (-1) ≠ -1 →
        0 < j ∧ j < ([7, 8, 9] : List ℤ).length + 1))) :=
  ⟨by decide, c1_masked_lm_labels_bound cfgA (fun _ => false) [1, 0, 2]
    (fun _ => .mask) [7, 8, 9] (by decide)⟩

theorem c2_whole_word_atomic_witness :
    cfgB.wholeWordMasking = true ∧ cfgB.maskedLmProb.num ≠ 0 ∧
    ([10, 11, 12] : List ℤ).length + 2 ≤ cfgB.maxSeqLength ∧
    (∀ x ∈ ([10, 11, 12] : List ℤ), 0 ≤ x) ∧
    ([1, 0] : List ℕ).Perm (List.range (buildGroups cfgB.wholeWordMasking
      (fun x => decide (x = 11)) [10, 11, 12]).length) ∧
    (∀ g ∈ buildGroups cfgB.wholeWordMasking (fun x => decide (x = 11)) [10, 11, 12],
      (∀ j ∈ g, ((createWordFeatures cfgB (fun x => decide (x = 11)) [1, 0]
        (fun _ => .mask) [10, 11, 12]).masked_lm_labels.getD []).getD j (-1) ≠ -1) ∨
      (∀ j ∈ g, ((createWordFeatures cfgB (fun x => decide (x = 11)) [1, 0]
        (fun _ => .mask) [10, 11, 12]).masked_lm_labels.getD []).getD j (-1) = -1)) :=
  ⟨by decide, by decide, by decide, by decide, by decide,
   c2_whole_word_atomic cfgB (fun x => decide (x = 11)) [1, 0] (fun _ => .mask)
     [10, 11, 12] (by decide) (by decide) (by decide) (by decide) (by decide)⟩

theorem c7_word_feature_shape_witness :
    ([7, 8, 9] : List ℤ).length + 2 ≤ cfgA.maxSeqLength ∧
    ((createWordFeatures cfgA (fun _ => false) [1, 0, 2] (fun _ => .keep)
        [7, 8, 9]).word_attention_mask.sum = (([7, 8, 9] : List ℤ).length : ℤ) + 2 ∧
    (createWordFeatures cfgA (fun _ => false) [1, 0, 2] (fun _ => .keep)
        [7, 8, 9]).word_ids.getD 0 0 = cfgA.clsId ∧
    (createWordFeatures cfgA (fun _ => false) [1, 0, 2] (fun _ => .keep)
        [7, 8, 9]).word_ids.getD (([7, 8, 9] : List ℤ).length + 1) 0 = cfgA.sepId ∧
    (∀ j, j < cfgA.maxSeqLength →
      (createWordFeatures cfgA (fun _ => false) [1, 0, 2] (fun _ => .keep)
          [7, 8, 9]).word_attention_mask.getD j 0 =
        if j < ([7, 8, 9] : List ℤ).length + 2 then 1 else 0) ∧
    (createWordFeatures cfgA (fun _ => false) [1, 0, 2] (fun _ => .keep)
        [7, 8, 9]).word_segment_ids = List.replicate cfgA.maxSeqLength 0) :=
  ⟨by decide, c7_word_feature_shape cfgA (fun _ => false) [1, 0, 2] (fun _ => .keep)
    [7, 8, 9] (by decide)⟩

theorem c10_disabled_wwm_exact_count_witness :
    cfgA.wholeWordMasking = false ∧ cfgA.maskedLmProb.num ≠ 0 ∧
    cfgA.maskedLmProb.num ≤ cfgA.maskedLmProb.den ∧ 0 < cfgA.maskedLmProb.den ∧
    1 ≤ ([7, 8, 9] : List ℤ).length ∧
    ([7, 8, 9] : List ℤ).length + 2 ≤ cfgA.maxSeqLength ∧
    (∀ x ∈ ([7, 8, 9] : List ℤ), 0 ≤ x) ∧
    ([2, 0, 1] : List ℕ).Perm (List.range (buildGroups cfgA.wholeWordMasking
      (fun _ => false) [7, 8, 9]).length) ∧
    labelCount ((createWordFeatures cfgA (fun _ => false) [2, 0, 1] (fun _ => .mask)
      [7, 8, 9]).masked_lm_labels.getD []) =
      max 1 (probRound ([7, 8, 9] : List ℤ).length cfgA.maskedLmProb) :=
  ⟨by decide, by decide, by decide, by decide, by decide, by decide, by decide,
   by decide,
   c10_disabled_wwm_exact_count cfgA (fun _ => false) [2, 0, 1] (fun _ => .mask)
     [7, 8, 9] (by decide) (by decide) (by decide) (by decide) (by decide)
     (by decide) (by decide) (by decide)⟩

/- ## Entity masking: fold characterization -/

theorem entityMaskFold_getD (entityIds : List ℤ) (maskId : ℤ) :
    ∀ (c : List ℕ) (labels out : List ℤ) (j : ℕ), c.Nodup →
      (∀ i ∈ c, i < labels.length ∧ i < out.length) →
      ((entityMaskFold entityIds maskId c labels out).1.getD j (-1) =
        if j ∈ c then entityIds.getD j 0 else labels.getD j (-1)) ∧
      ((entityMaskFold entityIds maskId c labels out).2.getD j 0 =
        if j ∈ c then maskId else out.getD j 0) := by
  intro c
  induction c with
  | nil =>
    intro labels out j _ _
    simp [entityMaskFold]
  | cons i rest ih =>
    intro labels out j hnd hbounds
    rcases List.nodup_cons.mp hnd with ⟨hir, hndr⟩
    have hib := hbounds i (List.mem_cons_self i rest)
    have hstep : entityMaskFold entityIds maskId (i :: rest) labels out =
        entityMaskFold entityIds maskId rest (labels.set i (entityIds.getD i 0))
          (out.set i maskId) := rfl
    rw [hstep]
    have hboundr : ∀ i2 ∈ rest, i2 < (labels.set i (entityIds.getD i 0)).length ∧
        i2 < (out.set i maskId).length := by
      intro i2 h2
      have := hbounds i2 (List.mem_cons_of_mem i h2)
      simpa [List.length_set] using this
    have hrec := ih (labels.set i (entityIds.getD i 0)) (out.set i maskId) j hndr hboundr
    by_cases hjr : j ∈ rest
    · rw [hrec.1, hrec.2, if_pos hjr, if_pos hjr,
        if_pos (List.mem_cons_of_mem i hjr), if_pos (List.mem_cons_of_mem i hjr)]
      exact ⟨rfl, rfl⟩
    · rw [hrec.1, hrec.2, if_neg hjr, if_neg hjr]
      by_cases hji : j = i
      · subst hji
        rw [getD_set_self _ _ _ _ hib.1, getD_set_self _ _ _ _ hib.2,
          if_pos (List.mem_cons_self j rest), if_pos (List.mem_cons_self j rest)]
        exact ⟨rfl, rfl⟩
      · have hij : i ≠ j := fun h => hji h.symm
        have hjc : j ∉ i :: rest := by
          intro h
          rcases List.mem_cons.mp h with h | h
          · exact hji h
          · exact hjr h
        rw [getD_set_ne _ _ _ _ _ hij, getD_set_ne _ _ _ _ _ hij,
          if_neg hjc, if_neg hjc]
        exact ⟨rfl, rfl⟩

theorem entityMaskFold_count (entityIds : List ℤ) (maskId : ℤ) :
    ∀ (c : List ℕ) (labels out : List ℤ), c.Nodup →
      (∀ i ∈ c, i < labels.length ∧ labels.getD i (-1) = -1 ∧
        entityIds.getD i 0 ≠ -1) →
      labelCount (entityMaskFold entityIds maskId c labels out).1 =
        labelCount labels + c.length := by
  intro c
  induction c with
  | nil =>
    intro labels out _ _
    simp [entityMaskFold]
  | cons i rest ih =>
    intro labels out hnd hinv
    rcases List.nodup_cons.mp hnd with ⟨hir, hndr⟩
    have hi := hinv i (List.mem_cons_self i rest)
    have hstep : entityMaskFold entityIds maskId (i :: rest) labels out =
        entityMaskFold entityIds maskId rest (labels.set i (entityIds.getD i 0))
          (out.set i maskId) := rfl
    rw [hstep]
    rw [ih (labels.set i (entityIds.getD i 0)) (out.set i maskId) hndr ?_]
    · rw [labelCount_set_fresh labels i _ hi.1 hi.2.1 hi.2.2]
      simp only [List.length_cons]
      omega
    · intro i2 h2
      have h3 := hinv i2 (List.mem_cons_of_mem i h2)
      have hne : i ≠ i2 := fun h => hir (h ▸ h2)
      refine ⟨by simpa [List.length_set] using h3.1, ?_, h3.2.2⟩
      rw [getD_set_ne _ _ _ _ _ hne]
      exact h3.2.1

theorem createEntityFeatures_pos (cfg : WorkerCfg) (perm : List ℕ)
    (entityIds : List ℤ) (entityPositionIds : List (List ℤ))
    (hp : cfg.maskedEntityProb.num ≠ 0) :
    createEntityFeatures cfg perm entityIds entityPositionIds =
      ⟨(entityMaskFold entityIds cfg.entityMaskId
          (perm.take (max 1 (probRound entityIds.length cfg.maskedEntityProb)))
          (List.replicate cfg.maxEntityLength (-1))
          (copyInto (List.replicate cfg.maxEntityLength (0 : ℤ)) entityIds)).2,
       copyInto (List.replicate cfg.maxEntityLength
         (List.replicate cfg.maxMentionLength (-1 : ℤ)))
         (shiftPositions entityPositionIds),
       copyInto (List.replicate cfg.maxEntityLength (0 : ℤ))
         (List.replicate entityIds.length (1 : ℤ)),
       List.replicate cfg.maxEntityLength 0,
       some (entityMaskFold entityIds cfg.entityMaskId
          (perm.take (max 1 (probRound entityIds.length cfg.maskedEntityProb)))
          (List.replicate cfg.maxEntityLength (-1))
          (copyInto (List.replicate cfg.maxEntityLength (0 : ℤ)) entityIds)).1⟩ := by
  simp [createEntityFeatures, hp]

/-- C3: with a nonzero `masked_entity_prob`, the `default`-variant entity
features relabel exactly `min(entity_count, max(1, round(entity_count *
masked_entity_prob)))` slots; every relabeled slot carries the original
entity id and its visible id is overwritten with the entity-mask id. -/
theorem c3_entity_masking_exact (cfg : WorkerCfg) (perm : List ℕ)
    (entityIds : List ℤ) (entityPositionIds : List (List ℤ))
    (hp : cfg.maskedEntityProb.num ≠ 0)
    (hn : entityIds.length ≤ cfg.maxEntityLength)
    (hids : ∀ x ∈ entityIds, 0 ≤ x)
    (hperm : perm.Perm (List.range entityIds.length)) :
    (createEntityFeatures cfg perm entityIds entityPositionIds).masked_entity_labels
      ≠ none ∧
    labelCount ((createEntityFeatures cfg perm entityIds
        entityPositionIds).masked_entity_labels.getD []) =
      min entityIds.length (max 1 (probRound entityIds.length cfg.maskedEntityProb)) ∧
    (∀ j, ((createEntityFeatures cfg perm entityIds
        entityPositionIds).masked_entity_labels.getD []).getD j (-1) ≠ -1 →
      ((createEntityFeatures cfg perm entityIds
        entityPositionIds).masked_entity_labels.getD []).getD j (-1) =
        entityIds.getD j 0 ∧
      (createEntityFeatures cfg perm entityIds
        entityPositionIds).entity_ids.getD j 0 = cfg.entityMaskId) := by
  have hndperm : perm.Nodup := hperm.nodup_iff.mpr (List.nodup_range _)
  set num := max 1 (probRound entityIds.length cfg.maskedEntityProb) with hnum
  have hndc : (perm.take num).Nodup := (List.take_sublist num perm).nodup hndperm
  have hmemc : ∀ i ∈ perm.take num, i < entityIds.length := by
    intro i hi
    have := (List.take_sublist num perm).subset hi
    have := hperm.mem_iff.mp this
    exact List.mem_range.mp this
  have hclen : (perm.take num).length = min num entityIds.length := by
    rw [List.length_take, hperm.length_eq, List.length_range]
  have hvne : ∀ i ∈ perm.take num, entityIds.getD i 0 ≠ -1 := by
    intro i hi
    have hlt := hmemc i hi
    rw [List.getD_eq_getElem _ _ hlt]
    have := hids _ (List.getElem_mem hlt)
    omega
  rw [createEntityFeatures_pos cfg perm entityIds entityPositionIds hp]
  simp only [Option.getD_some]
  have hbounds2 : ∀ i ∈ perm.take num,
      i < (List.replicate cfg.maxEntityLength (-1 : ℤ)).length ∧
      i < (copyInto (List.replicate cfg.maxEntityLength (0 : ℤ)) entityIds).length := by
    intro i hi
    have := hmemc i hi
    rw [copyInto_length, List.length_replicate, List.length_replicate]
    omega
  refine ⟨by simp, ?_, ?_⟩
  · rw [entityMaskFold_count entityIds cfg.entityMaskId (perm.take num) _ _ hndc ?_]
    · rw [labelCount_replicate_sentinel, hclen]
      omega
    · intro i hi
      refine ⟨?_, getD_replicate_self _ _ _, hvne i hi⟩
      rw [List.length_replicate]
      have := hmemc i hi
      omega
  · intro j hne
    have hchar := entityMaskFold_getD entityIds cfg.entityMaskId (perm.take num)
      (List.replicate cfg.maxEntityLength (-1))
      (copyInto (List.replicate cfg.maxEntityLength (0 : ℤ)) entityIds) j hndc hbounds2
    by_cases hjc : j ∈ perm.take num
    · constructor
      · rw [hchar.1, if_pos hjc]
      · rw [hchar.2, if_pos hjc]
    · exfalso
      rw [hchar.1, if_neg hjc, getD_replicate_self] at hne
      exact hne rfl

/- ## Candidate-grid frame property (e2e variant) -/

/-- The spec's description of the candidate grid: the input
`entity_candidate_ids` zero-padded to shape
`(max_entity_length, max_candidate_length)`.  This follows the spec's words
and is compared against the implementation's grid. -/
def zeroPad2 (rows cols : ℕ) (g : List (List ℤ)) : List (List ℤ) :=
  (g.map (fun r => (r ++ List.replicate (cols - r.length) 0).take cols)).take rows ++
    List.replicate (rows - g.length) (List.replicate cols 0)

theorem e2eLabelFold_getD (entityIds : List ℤ) :
    ∀ (c : List ℕ) (init : List ℤ) (j : ℕ),
      ((c.foldl (fun l idx => l.set idx (entityIds.getD idx 0)) init).getD j (-1) =
        init.getD j (-1)) ∨
      ((c.foldl (fun l idx => l.set idx (entityIds.getD idx 0)) init).getD j (-1) =
        entityIds.getD j 0) := by
  intro c
  induction c with
  | nil =>
    intro init j
    left
    rfl
  | cons i rest ih =>
    intro init j
    have hstep : (i :: rest).foldl (fun l idx => l.set idx (entityIds.getD idx 0)) init =
        rest.foldl (fun l idx => l.set idx (entityIds.getD idx 0))
          (init.set i (entityIds.getD i 0)) := rfl
    rw [hstep]
    rcases ih (init.set i (entityIds.getD i 0)) j with h | h
    · by_cases hji : j = i
      · subst hji
        by_cases hb : j < init.length
        · right
          rw [h, getD_set_self _ _ _ _ hb]
        · left
          rw [h, List.set_eq_of_length_le (le_of_not_lt hb)]
      · left
        rw [h, getD_set_ne _ _ _ _ _ (fun h2 => hji h2.symm)]
    · right
      exact h

theorem createEntityFeaturesE2E_candidates (cfg : WorkerCfg) (perm : List ℕ)
    (entityIds : List ℤ) (entityPositionIds : List (List ℤ))
    (entityCandidateIds : List (List ℤ)) (entityCandidateLabels : List ℤ) :
    (createEntityFeaturesE2E cfg perm entityIds entityPositionIds entityCandidateIds
        entityCandidateLabels).entity_candidate_ids =
      copyInto (List.replicate cfg.maxEntityLength
        (List.replicate cfg.maxCandidateLength (0 : ℤ))) entityCandidateIds := by
  by_cases hp : cfg.maskedEntityProb.num = 0 <;>
    simp [createEntityFeaturesE2E, hp]

/-- C4: the candidate-variant (`e2e`) entity features always pack the input
candidate grid zero-padded to `(max_entity_length, max_candidate_length)`,
whether or not entity masking is enabled; masking never overwrites the grid
and only adds a `masked_entity_labels` array holding true entity ids. -/
theorem c4_e2e_candidate_frame (cfg : WorkerCfg) (perm : List ℕ)
    (entityIds : List ℤ) (entityPositionIds : List (List ℤ))
    (entityCandidateIds : List (List ℤ)) (entityCandidateLabels : List ℤ)
    (hrows : ∀ r ∈ entityCandidateIds, r.length = cfg.maxCandidateLength)
    (hlen : entityCandidateIds.length ≤ cfg.maxEntityLength) :
    (createEntityFeaturesE2E cfg perm entityIds entityPositionIds entityCandidateIds
        entityCandidateLabels).entity_candidate_ids =
      zeroPad2 cfg.maxEntityLength cfg.maxCandidateLength entityCandidateIds ∧
    (cfg.maskedEntityProb.num = 0 →
      (createEntityFeaturesE2E cfg perm entityIds entityPositionIds entityCandidateIds
        entityCandidateLabels).masked_entity_labels = none) ∧
    (cfg.maskedEntityProb.num ≠ 0 →
      (createEntityFeaturesE2E cfg perm entityIds entityPositionIds entityCandidateIds
        entityCandidateLabels).masked_entity_labels ≠ none ∧
      ∀ j, ((createEntityFeaturesE2E cfg perm entityIds entityPositionIds
          entityCandidateIds entityCandidateLabels).masked_entity_labels.getD
          []).getD j (-1) ≠ -1 →
        ((createEntityFeaturesE2E cfg perm entityIds entityPositionIds
          entityCandidateIds entityCandidateLabels).masked_entity_labels.getD
          []).getD j (-1) = entityIds.getD j 0) := by
  refine ⟨?_, ?_, ?_⟩
  · rw [createEntityFeaturesE2E_candidates]
    rw [copyInto_of_le _ _ (by rw [List.length_replicate]; exact hlen)]
    rw [List.drop_replicate]
    unfold zeroPad2
    congr 1
    have hmapid : entityCandidateIds.map
        (fun r => (r ++ List.replicate (cfg.maxCandidateLength - r.length) 0).take
          cfg.maxCandidateLength) = entityCandidateIds := by
      conv_rhs => rw [← List.map_id entityCandidateIds]
      apply List.map_congr_left
      intro r hr
      have h := hrows r hr
      rw [h, Nat.sub_self]
      simp [List.take_of_length_le (le_of_eq h)]
    rw [hmapid]
    rw [List.take_of_length_le hlen]
  · intro hp
    simp [createEntityFeaturesE2E, hp]
  · intro hp
    have hlab : (createEntityFeaturesE2E cfg perm entityIds entityPositionIds
        entityCandidateIds entityCandidateLabels).masked_entity_labels =
        some ((perm.take (max 1 (probRound entityIds.length
            cfg.maskedEntityProb))).foldl
          (fun l idx => l.set idx (entityIds.getD idx 0))
          (List.replicate cfg.maxEntityLength (-1))) := by
      simp [createEntityFeaturesE2E, hp]
    rw [hlab]
    simp only [Option.getD_some]
    refine ⟨by simp, ?_⟩
    intro j hne
    rcases e2eLabelFold_getD entityIds
      (perm.take (max 1 (probRound entityIds.length cfg.maskedEntityProb)))
      (List.replicate cfg.maxEntityLength (-1)) j with h | h
    · exfalso
      rw [h, getD_replicate_self] at hne
      exact hne rfl
    · exact h

theorem c3_entity_masking_exact_witness :
    cfgA.maskedEntityProb.num ≠ 0 ∧
    ([20, 21] : List ℤ).length ≤ cfgA.maxEntityLength ∧
    (∀ x ∈ ([20, 21] : List ℤ), 0 ≤ x) ∧
    ([1, 0] : List ℕ).Perm (List.range ([20, 21] : List ℤ).length) ∧
    ((createEntityFeatures cfgA [1, 0] [20, 21]
        [[0, 1], [2, -1]]).masked_entity_labels ≠ none ∧
    labelCount ((createEntityFeatures cfgA [1, 0] [20, 21]
        [[0, 1], [2, -1]]).masked_entity_labels.getD []) =
      min ([20, 21] : List ℤ).length
        (max 1 (probRound ([20, 21] : List ℤ).length cfgA.maskedEntityProb)) ∧
    (∀ j, ((createEntityFeatures cfgA [1, 0] [20, 21]
        [[0, 1], [2, -1]]).masked_entity_labels.getD []).getD j (-1) ≠ -1 →
      ((createEntityFeatures cfgA [1, 0] [20, 21]
        [[0, 1], [2, -1]]).masked_entity_labels.getD []).getD j (-1) =
        ([20, 21] : List ℤ).getD j 0 ∧
      (createEntityFeatures cfgA [1, 0] [20, 21]
        [[0, 1], [2, -1]]).entity_ids.getD j 0 = cfgA.entityMaskId)) :=
  ⟨by decide, by decide, by decide, by decide,
   c3_entity_masking_exact cfgA [1, 0] [20, 21] [[0, 1], [2, -1]]
     (by decide) (by decide) (by decide) (by decide)⟩

theorem c4_e2e_candidate_frame_witness :
    (∀ r ∈ ([[5, 6, 7], [8, 9, 10]] : List (List ℤ)),
      r.length = cfgA.maxCandidateLength) ∧
    ([[5, 6, 7], [8, 9, 10]] : List (List ℤ)).length ≤ cfgA.maxEntityLength ∧
    ((createEntityFeaturesE2E cfgA [1, 0] [20, 21] [[0, 1], [2, -1]]
        [[5, 6, 7], [8, 9, 10]] [0, 1]).entity_candidate_ids =
      zeroPad2 cfgA.maxEntityLength cfgA.maxCandidateLength
        [[5, 6, 7], [8, 9, 10]] ∧
    (cfgA.maskedEntityProb.num = 0 →
      (createEntityFeaturesE2E cfgA [1, 0] [20, 21] [[0, 1], [2, -1]]
        [[5, 6, 7], [8, 9, 10]] [0, 1]).masked_entity_labels = none) ∧
    (cfgA.maskedEntityProb.num ≠ 0 →
      (createEntityFeaturesE2E cfgA [1, 0] [20, 21] [[0, 1], [2, -1]]
        [[5, 6, 7], [8, 9, 10]] [0, 1]).masked_entity_labels ≠ none ∧
      ∀ j, ((createEntityFeaturesE2E cfgA [1, 0] [20, 21] [[0, 1], [2, -1]]
          [[5, 6, 7], [8, 9, 10]] [0, 1]).masked_entity_labels.getD
          []).getD j (-1) ≠ -1 →
        ((createEntityFeaturesE2E cfgA [1, 0] [20, 21] [[0, 1], [2, -1]]
          [[5, 6, 7], [8, 9, 10]] [0, 1]).masked_entity_labels.getD
          []).getD j (-1) = ([20, 21] : List ℤ).getD j 0)) :=
  ⟨by decide, by decide,
   c4_e2e_candidate_frame cfgA [1, 0] [20, 21] [[0, 1], [2, -1]]
     [[5, 6, 7], [8, 9, 10]] [0, 1] (by decide) (by decide)⟩

/- ## Field array lengths -/

theorem createWordFeatures_word_ids_length (cfg : WorkerCfg) (cont : ℤ → Bool)
    (perm : List ℕ) (acts : ℕ → MaskAction) (wordIds : List ℤ) :
    (createWordFeatures cfg cont perm acts wordIds).word_ids.length =
      cfg.maxSeqLength := by
  by_cases hp : cfg.maskedLmProb.num = 0
  · rw [createWordFeatures_zero cfg cont perm acts wordIds hp]
    exact paddedWordIds_length cfg wordIds
  · rw [createWordFeatures_pos cfg cont perm acts wordIds hp]
    show (maskLoop _ _ _ _ _).out.length = _
    rw [maskLoop_out_length]
    exact paddedWordIds_length cfg wordIds

theorem createWordFeatures_mask_length (cfg : WorkerCfg) (cont : ℤ → Bool)
    (perm : List ℕ) (acts : ℕ → MaskAction) (wordIds : List ℤ) :
    (createWordFeatures cfg cont perm acts wordIds).word_attention_mask.length =
      cfg.maxSeqLength := by
  by_cases hp : cfg.maskedLmProb.num = 0
  · rw [createWordFeatures_zero cfg cont perm acts wordIds hp]
    show (copyInto _ _).length = _
    rw [copyInto_length, List.length_replicate]
  · rw [createWordFeatures_pos cfg cont perm acts wordIds hp]
    show (copyInto _ _).length = _
    rw [copyInto_length, List.length_replicate]

theorem createWordFeatures_seg_length (cfg : WorkerCfg) (cont : ℤ → Bool)
    (perm : List ℕ) (acts : ℕ → MaskAction) (wordIds : List ℤ) :
    (createWordFeatures cfg cont perm acts wordIds).word_segment_ids.length =
      cfg.maxSeqLength := by
  by_cases hp : cfg.maskedLmProb.num = 0
  · rw [createWordFeatures_zero cfg cont perm acts wordIds hp]
    exact List.length_replicate _ _
  · rw [createWordFeatures_pos cfg cont perm acts wordIds hp]
    exact List.length_replicate _ _

theorem createWordFeatures_labels_length (cfg : WorkerCfg) (cont : ℤ → Bool)
    (perm : List ℕ) (acts : ℕ → MaskAction) (wordIds : List ℤ) (l : List ℤ)
    (hl : (createWordFeatures cfg cont perm acts wordIds).masked_lm_labels = some l) :
    l.length = cfg.maxSeqLength := by
  by_cases hp : cfg.maskedLmProb.num = 0
  · rw [createWordFeatures_zero cfg cont perm acts wordIds hp] at hl
    exact absurd hl (by simp)
  · rw [createWordFeatures_pos cfg cont perm acts wordIds hp] at hl
    have := Option.some.inj hl
    rw [← this, maskLoop_labels_length, maskInit_labels_length]

theorem entityMaskFold_fst_length (entityIds : List ℤ) (maskId : ℤ) :
    ∀ (c : List ℕ) (labels out : List ℤ),
      (entityMaskFold entityIds maskId c labels out).1.length = labels.length := by
  intro c
  induction c with
  | nil => intro labels out; rfl
  | cons i rest ih =>
    intro labels out
    have hstep : entityMaskFold entityIds maskId (i :: rest) labels out =
        entityMaskFold entityIds maskId rest (labels.set i (entityIds.getD i 0))
          (out.set i maskId) := rfl
    rw [hstep, ih, List.length_set]

theorem entityMaskFold_snd_length (entityIds : List ℤ) (maskId : ℤ) :
    ∀ (c : List ℕ) (labels out : List ℤ),
      (entityMaskFold entityIds maskId c labels out).2.length = out.length := by
  intro c
  induction c with
  | nil => intro labels out; rfl
  | cons i rest ih =>
    intro labels out
    have hstep : entityMaskFold entityIds maskId (i :: rest) labels out =
        entityMaskFold entityIds maskId rest (labels.set i (entityIds.getD i 0))
          (out.set i maskId) := rfl
    rw [hstep, ih, List.length_set]

theorem createEntityFeatures_zero (cfg : WorkerCfg) (perm : List ℕ)
    (entityIds : List ℤ) (entityPositionIds : List (List ℤ))
    (hp : cfg.maskedEntityProb.num = 0) :
    createEntityFeatures cfg perm entityIds entityPositionIds =
      ⟨copyInto (List.replicate cfg.maxEntityLength (0 : ℤ)) entityIds,
       copyInto (List.replicate cfg.maxEntityLength
         (List.replicate cfg.maxMentionLength (-1 : ℤ)))
         (shiftPositions entityPositionIds),
       copyInto (List.replicate cfg.maxEntityLength (0 : ℤ))
         (List.replicate entityIds.length (1 : ℤ)),
       List.replicate cfg.maxEntityLength 0, none⟩ := by
  simp [createEntityFeatures, hp]

theorem createEntityFeatures_entity_ids_length (cfg : WorkerCfg) (perm : List ℕ)
    (entityIds : List ℤ) (entityPositionIds : List (List ℤ)) :
    (createEntityFeatures cfg perm entityIds entityPositionIds).entity_ids.length =
      cfg.maxEntityLength := by
  by_cases hp : cfg.maskedEntityProb.num = 0
  · rw [createEntityFeatures_zero cfg perm entityIds entityPositionIds hp]
    show (copyInto _ _).length = _
    rw [copyInto_length, List.length_replicate]
  · rw [createEntityFeatures_pos cfg perm entityIds entityPositionIds hp]
    show (entityMaskFold _ _ _ _ _).2.length = _
    rw [entityMaskFold_snd_length, copyInto_length, List.length_replicate]

theorem createEntityFeatures_position_length (cfg : WorkerCfg) (perm : List ℕ)
    (entityIds : List ℤ) (entityPositionIds : List (List ℤ)) :
    (createEntityFeatures cfg perm entityIds
      entityPositionIds).entity_position_ids.length = cfg.maxEntityLength := by
  by_cases hp : cfg.maskedEntityProb.num = 0
  · rw [createEntityFeatures_zero cfg perm entityIds entityPositionIds hp]
    show (copyInto _ _).length = _
    rw [copyInto_length, List.length_replicate]
  · rw [createEntityFeatures_pos cfg perm entityIds entityPositionIds hp]
    show (copyInto _ _).length = _
    rw [copyInto_length, List.length_replicate]

theorem createEntityFeatures_attn_length (cfg : WorkerCfg) (perm : List ℕ)
    (entityIds : List ℤ) (entityPositionIds : List (List ℤ)) :
    (createEntityFeatures cfg perm entityIds
      entityPositionIds).entity_attention_mask.length = cfg.maxEntityLength := by
  by_cases hp : cfg.maskedEntityProb.num = 0
  · rw [createEntityFeatures_zero cfg perm entityIds entityPositionIds hp]
    show (copyInto _ _).length = _
    rw [copyInto_length, List.length_replicate]
  · rw [createEntityFeatures_pos cfg perm entityIds entityPositionIds hp]
    show (copyInto _ _).length = _
    rw [copyInto_length, List.length_replicate]

theorem createEntityFeatures_seg_length (cfg : WorkerCfg) (perm : List ℕ)
    (entityIds : List ℤ) (entityPositionIds : List (List ℤ)) :
    (createEntityFeatures cfg perm entityIds
      entityPositionIds).entity_segment_ids.length = cfg.maxEntityLength := by
  by_cases hp : cfg.maskedEntityProb.num = 0
  · rw [createEntityFeatures_zero cfg perm entityIds entityPositionIds hp]
    exact List.length_replicate _ _
  · rw [createEntityFeatures_pos cfg perm entityIds entityPositionIds hp]
    exact List.length_replicate _ _

theorem createEntityFeatures_labels_length (cfg : WorkerCfg) (perm : List ℕ)
    (entityIds : List ℤ) (entityPositionIds : List (List ℤ)) (l : List ℤ)
    (hl : (createEntityFeatures cfg perm entityIds
      entityPositionIds).masked_entity_labels = some l) :
    l.length = cfg.maxEntityLength := by
  by_cases hp : cfg.maskedEntityProb.num = 0
  · rw [createEntityFeatures_zero cfg perm entityIds entityPositionIds hp] at hl
    exact absurd hl (by simp)
  · rw [createEntityFeatures_pos cfg perm entityIds entityPositionIds hp] at hl
    have := Option.some.inj hl
    rw [← this, entityMaskFold_fst_length, List.length_replicate]

/- ## The batching loop as chunking -/

/-- The consecutive size-`bs` chunks of a list; a final partial chunk is
dropped. -/
def fullChunks {α : Type} (bs : ℕ) (l : List α) : List (List α) :=
  if h : 0 < bs ∧ bs ≤ l.length then l.take bs :: fullChunks bs (l.drop bs)
  else []
termination_by l.length
decreasing_by
  rw [List.length_drop]
  omega

theorem fullChunks_eq {α : Type} (bs : ℕ) (l : List α) :
    fullChunks bs l = if 0 < bs ∧ bs ≤ l.length then
      l.take bs :: fullChunks bs (l.drop bs) else [] := by
  rw [fullChunks]
  split <;> rfl

/-- The batch built from one full chunk of examples: the source's
`mkBatchFromBuf` applied to the chunk's feature pairs, with the running maxima
the loop would have accumulated (both starting at their minimum 1). -/
def chunkBatch (wf ef : ExampleIn → List (String × Arr)) (c : List ExampleIn) :
    List (String × List Arr) :=
  mkBatchFromBuf (c.map (fun ex => (wf ex, ef ex)))
    (c.foldl (fun m ex => max m (ex.word_ids.length + 2)) 1)
    (c.foldl (fun m ex => max m ex.entity_ids.length) 1)

theorem runLoop_partial (bs : ℕ) (wf ef : ExampleIn → List (String × Arr)) :
    ∀ (l : List ExampleIn) (buf : List (List (String × Arr) × List (String × Arr)))
      (mw me : ℕ), buf.length + l.length < bs →
      runLoop bs wf ef l buf mw me = [] := by
  intro l
  induction l with
  | nil => intro buf mw me _; rfl
  | cons ex rest ih =>
    intro buf mw me hlt
    simp only [List.length_cons] at hlt
    rw [runLoop]
    rw [if_neg ?_]
    · apply ih
      simp only [List.length_append, List.length_cons, List.length_nil]
      omega
    · simp only [List.length_append, List.length_cons, List.length_nil]
      omega

theorem runLoop_fill (bs : ℕ) (wf ef : ExampleIn → List (String × Arr)) :
    ∀ (c rest : List ExampleIn)
      (buf : List (List (String × Arr) × List (String × Arr))) (mw me : ℕ),
      c ≠ [] → buf.length + c.length = bs →
      runLoop bs wf ef (c ++ rest) buf mw me =
        mkBatchFromBuf (buf ++ c.map (fun ex => (wf ex, ef ex)))
          (c.foldl (fun m ex => max m (ex.word_ids.length + 2)) mw)
          (c.foldl (fun m ex => max m ex.entity_ids.length) me) ::
        runLoop bs wf ef rest [] 1 1 := by
  intro c
  induction c with
  | nil => intro rest buf mw me hne _; exact absurd rfl hne
  | cons ex c2 ih =>
    intro rest buf mw me _ hlen
    simp only [List.length_cons, List.length_nil] at hlen
    cases c2 with
    | nil =>
      rw [List.cons_append, List.nil_append, runLoop]
      rw [if_pos ?_]
      · simp [List.foldl_cons]
      · simp only [List.length_nil] at hlen
        simp only [List.length_append, List.length_cons, List.length_nil]
        omega
    | cons ex2 c3 =>
      rw [List.cons_append, runLoop]
      rw [if_neg ?_]
      · rw [ih rest (buf ++ [(wf ex, ef ex)]) (max mw (ex.word_ids.length + 2))
            (max me ex.entity_ids.length) (by simp) ?_]
        · simp [List.foldl_cons, List.append_assoc]
        · simp only [List.length_append, List.length_cons, List.length_nil]
          simp only [List.length_cons] at hlen
          omega
      · simp only [List.length_append, List.length_cons, List.length_nil]
        simp only [List.length_cons] at hlen
        omega

theorem workerRun_chunks_aux (bs : ℕ) (wf ef : ExampleIn → List (String × Arr))
    (hbs : 0 < bs) :
    ∀ (n : ℕ) (examples : List ExampleIn), examples.length ≤ n →
      workerRun bs wf ef examples =
        (fullChunks bs examples).map (chunkBatch wf ef) := by
  intro n
  induction n with
  | zero =>
    intro examples hlen
    have hnil : examples = [] := List.length_eq_zero.mp (by omega)
    subst hnil
    rw [fullChunks_eq, if_neg]
    · rfl
    · rw [List.length_nil]
      omega
  | succ k ih =>
    intro examples hlen
    by_cases hc : bs ≤ examples.length
    · rw [fullChunks_eq, if_pos ⟨hbs, hc⟩, List.map_cons]
      have hsplit : examples = examples.take bs ++ examples.drop bs :=
        (List.take_append_drop bs examples).symm
      have htake : (examples.take bs).length = bs := by
        rw [List.length_take]
        omega
      have hstep : workerRun bs wf ef examples =
          mkBatchFromBuf ([] ++ (examples.take bs).map (fun ex => (wf ex, ef ex)))
            ((examples.take bs).foldl (fun m ex => max m (ex.word_ids.length + 2)) 1)
            ((examples.take bs).foldl (fun m ex => max m ex.entity_ids.length) 1) ::
          runLoop bs wf ef (examples.drop bs) [] 1 1 := by
        show runLoop bs wf ef examples [] 1 1 = _
        conv_lhs => rw [hsplit]
        exact runLoop_fill bs wf ef (examples.take bs) (examples.drop bs) [] 1 1
          (by intro h; rw [h] at htake; simp at htake; omega) (by simp [htake])
      rw [hstep]
      have h2 : runLoop bs wf ef (examples.drop bs) [] 1 1 =
          (fullChunks bs (examples.drop bs)).map (chunkBatch wf ef) :=
        ih (examples.drop bs) (by rw [List.length_drop]; omega)
      rw [h2]
      rfl
    · rw [fullChunks_eq, if_neg (fun h => hc h.2), List.map_nil]
      exact runLoop_partial bs wf ef examples [] 1 1
        (by simp only [List.length_nil]; omega)

theorem fullChunks_length {α : Type} (bs : ℕ) (hbs : 0 < bs) :
    ∀ (n : ℕ) (l : List α), l.length ≤ n →
      (fullChunks bs l).length = l.length / bs := by
  intro n
  induction n with
  | zero =>
    intro l hl
    have hnil : l = [] := List.length_eq_zero.mp (by omega)
    subst hnil
    rw [fullChunks_eq, if_neg]
    · simp
    · rw [List.length_nil]
      omega
  | succ k ih =>
    intro l hl
    by_cases hc : bs ≤ l.length
    · rw [fullChunks_eq, if_pos ⟨hbs, hc⟩, List.length_cons,
        ih (l.drop bs) (by rw [List.length_drop]; omega), List.length_drop,
        Nat.div_eq_sub_div hbs hc]
    · rw [fullChunks_eq, if_neg (fun h => hc h.2), List.length_nil,
        Nat.div_eq_of_lt (by omega)]

theorem fullChunks_mem_length {α : Type} (bs : ℕ) :
    ∀ (n : ℕ) (l : List α), l.length ≤ n →
      ∀ c ∈ fullChunks bs l, c.length = bs := by
  intro n
  induction n with
  | zero =>
    intro l hl c hc
    have hnil : l = [] := List.length_eq_zero.mp (by omega)
    subst hnil
    rw [fullChunks_eq] at hc
    split at hc
    · rename_i h
      rw [List.length_nil] at h
      omega
    · exact absurd hc (List.not_mem_nil c)
  | succ k ih =>
    intro l hl c hc
    rw [fullChunks_eq] at hc
    split at hc
    · rename_i h
      rcases List.mem_cons.mp hc with rfl | hc2
      · rw [List.length_take]
        omega
      · exact ih (l.drop bs) (by rw [List.length_drop]; omega) c hc2
    · exact absurd hc (List.not_mem_nil c)

theorem fullChunks_mem_subset {α : Type} (bs : ℕ) :
    ∀ (n : ℕ) (l : List α), l.length ≤ n →
      ∀ c ∈ fullChunks bs l, ∀ x ∈ c, x ∈ l := by
  intro n
  induction n with
  | zero =>
    intro l hl c hc
    have hnil : l = [] := List.length_eq_zero.mp (by omega)
    subst hnil
    rw [fullChunks_eq] at hc
    split at hc
    · rename_i h
      rw [List.length_nil] at h
      omega
    · exact absurd hc (List.not_mem_nil c)
  | succ k ih =>
    intro l hl c hc x hx
    rw [fullChunks_eq] at hc
    split at hc
    · rename_i h
      rcases List.mem_cons.mp hc with rfl | hc2
      · exact List.take_subset bs l hx
      · exact List.drop_subset bs l
          (ih (l.drop bs) (by rw [List.length_drop]; omega) c hc2 x hx)
    · exact absurd hc (List.not_mem_nil c)

theorem stackFields_val_length (m : ℕ) (dicts : List (List (String × Arr))) :
    ∀ kv ∈ stackFields m dicts, kv.2.length = dicts.length := by
  cases dicts with
  | nil =>
    intro kv hkv
    exact absurd hkv (List.not_mem_nil kv)
  | cons d0 drest =>
    intro kv hkv
    simp only [stackFields] at hkv
    rcases List.mem_map.mp hkv with ⟨kv0, _, rfl⟩
    simp

theorem mkBatchFromBuf_val_length
    (buf : List (List (String × Arr) × List (String × Arr))) (mw me : ℕ) :
    ∀ kv ∈ mkBatchFromBuf buf mw me, kv.2.length = buf.length := by
  intro kv hkv
  rcases List.mem_append.mp hkv with h | h
  · have := stackFields_val_length mw (buf.map Prod.fst) kv h
    simpa using this
  · have := stackFields_val_length me (buf.map Prod.snd) kv h
    simpa using this

/-- C6: over any finite example stream, the emitted batches are exactly the
full batch-size chunks of the stream, in order: there are `length / bs` of
them, every batch stacks exactly `bs` examples in each field, and when the
source ends (exhausted or raising) with a buffer holding fewer than `bs`
examples, that buffer is discarded and never emitted. -/
theorem c6_no_partial_batches (bs : ℕ) (wf ef : ExampleIn → List (String × Arr))
    (examples : List ExampleIn) (hbs : 0 < bs) :
    workerRun bs wf ef examples = (fullChunks bs examples).map (chunkBatch wf ef) ∧
    (workerRun bs wf ef examples).length = examples.length / bs ∧
    (examples.length < bs → workerRun bs wf ef examples = []) ∧
    (∀ b ∈ workerRun bs wf ef examples, ∀ kv ∈ b, kv.2.length = bs) := by
  have hid := workerRun_chunks_aux bs wf ef hbs examples.length examples (le_refl _)
  refine ⟨hid, ?_, ?_, ?_⟩
  · rw [hid, List.length_map]
    exact fullChunks_length bs hbs examples.length examples (le_refl _)
  · intro hlt
    rw [hid, fullChunks_eq, if_neg (by omega), List.map_nil]
  · intro b hb kv hkv
    rw [hid] at hb
    rcases List.mem_map.mp hb with ⟨c, hc, rfl⟩
    have hclen := fullChunks_mem_length bs examples.length examples (le_refl _) c hc
    have hval := mkBatchFromBuf_val_length (c.map (fun ex => (wf ex, ef ex))) _ _ kv hkv
    rw [hval, List.length_map, hclen]

/-- A concrete example with two word tokens and one entity. -/
def exA : ExampleIn :=
  ⟨[7, 8], [20], [[0, 1]], [[5, 6, 7]], [0], [0, 1], fun _ => .mask, [0]⟩

/-- A concrete example with one word token and no entities. -/
def exB : ExampleIn :=
  ⟨[9], [], [], [], [], [0], fun _ => .keep, []⟩

/-- A concrete example with one word token and one entity. -/
def exC : ExampleIn :=
  ⟨[7], [21], [[1, -1]], [[8, 9, 10]], [1], [0], fun _ => .keep, [0]⟩

theorem c6_no_partial_batches_witness :
    0 < 2 ∧
    (workerRun 2 (wordFeatureDict cfgA (fun _ => false)) (entityFeatureDict cfgA)
        [exA, exB, exC] =
      (fullChunks 2 [exA, exB, exC]).map
        (chunkBatch (wordFeatureDict cfgA (fun _ => false)) (entityFeatureDict cfgA)) ∧
    (workerRun 2 (wordFeatureDict cfgA (fun _ => false)) (entityFeatureDict cfgA)
        [exA, exB, exC]).length = ([exA, exB, exC] : List ExampleIn).length / 2 ∧
    (([exA, exB, exC] : List ExampleIn).length < 2 →
      workerRun 2 (wordFeatureDict cfgA (fun _ => false)) (entityFeatureDict cfgA)
        [exA, exB, exC] = []) ∧
    (∀ b ∈ workerRun 2 (wordFeatureDict cfgA (fun _ => false))
        (entityFeatureDict cfgA) [exA, exB, exC], ∀ kv ∈ b, kv.2.length = 2)) :=
  ⟨by decide,
   c6_no_partial_batches 2 (wordFeatureDict cfgA (fun _ => false))
     (entityFeatureDict cfgA) [exA, exB, exC] (by decide)⟩

/- ## True maxima over a buffer -/

/-- The true maximum padded word length (`word_count + 2`) over a buffer. -/
def trueWordMax (c : List ExampleIn) : ℕ :=
  c.foldl (fun m ex => max m (ex.word_ids.length + 2)) 0

/-- The true maximum real entity count over a buffer. -/
def trueEntityMax (c : List ExampleIn) : ℕ :=
  c.foldl (fun m ex => max m ex.entity_ids.length) 0

theorem foldl_max_start (f : ExampleIn → ℕ) :
    ∀ (c : List ExampleIn) (a b : ℕ),
      c.foldl (fun m ex => max m (f ex)) (max a b) =
        max a (c.foldl (fun m ex => max m (f ex)) b) := by
  intro c
  induction c with
  | nil => intro a b; rfl
  | cons ex c2 ih =>
    intro a b
    simp only [List.foldl_cons]
    rw [max_assoc, ih]

theorem foldl_max_one (f : ExampleIn → ℕ) (c : List ExampleIn) :
    c.foldl (fun m ex => max m (f ex)) 1 =
      max 1 (c.foldl (fun m ex => max m (f ex)) 0) := by
  have h := foldl_max_start f c 1 0
  simpa using h

theorem le_foldl_max (f : ExampleIn → ℕ) :
    ∀ (c : List ExampleIn) (b : ℕ), b ≤ c.foldl (fun m ex => max m (f ex)) b := by
  intro c
  induction c with
  | nil => intro b; exact le_refl b
  | cons ex c2 ih =>
    intro b
    simp only [List.foldl_cons]
    exact le_trans (le_max_left b (f ex)) (ih (max b (f ex)))

theorem foldl_max_le (f : ExampleIn → ℕ) :
    ∀ (c : List ExampleIn) (b B : ℕ), b ≤ B → (∀ ex ∈ c, f ex ≤ B) →
      c.foldl (fun m ex => max m (f ex)) b ≤ B := by
  intro c
  induction c with
  | nil => intro b B hb _; exact hb
  | cons ex c2 ih =>
    intro b B hb hf
    simp only [List.foldl_cons]
    refine ih _ B ?_ (fun e he => hf e (List.mem_cons_of_mem ex he))
    exact max_le hb (hf ex (List.mem_cons_self ex c2))

theorem trueWordMax_ge_two (c : List ExampleIn) (hne : c ≠ []) :
    2 ≤ trueWordMax c := by
  cases c with
  | nil => exact absurd rfl hne
  | cons ex c2 =>
    unfold trueWordMax
    simp only [List.foldl_cons]
    refine le_trans ?_ (le_foldl_max _ c2 _)
    simp

/- ## The shape of the per-example feature dicts -/

theorem arrLen_one (l : List ℤ) : (Arr.one l).len = l.length := rfl

theorem arrLen_two (g : List (List ℤ)) : (Arr.two g).len = g.length := rfl

theorem arrTrim_len (m : ℕ) (a : Arr) : (a.trim m).len = min m a.len := by
  cases a <;> simp [Arr.trim, Arr.len]

theorem wordFeatureDict_zero (cfg : WorkerCfg) (cont : ℤ → Bool) (ex : ExampleIn)
    (hp : cfg.maskedLmProb.num = 0) :
    wordFeatureDict cfg cont ex =
      [("word_ids", Arr.one (createWordFeatures cfg cont ex.wperm ex.wacts
          ex.word_ids).word_ids),
       ("word_attention_mask", Arr.one (createWordFeatures cfg cont ex.wperm ex.wacts
          ex.word_ids).word_attention_mask),
       ("word_segment_ids", Arr.one (createWordFeatures cfg cont ex.wperm ex.wacts
          ex.word_ids).word_segment_ids)] := by
  unfold wordFeatureDict
  rw [createWordFeatures_zero cfg cont ex.wperm ex.wacts ex.word_ids hp]
  rfl

theorem wordFeatureDict_pos (cfg : WorkerCfg) (cont : ℤ → Bool) (ex : ExampleIn)
    (hp : cfg.maskedLmProb.num ≠ 0) :
    wordFeatureDict cfg cont ex =
      [("word_ids", Arr.one (createWordFeatures cfg cont ex.wperm ex.wacts
          ex.word_ids).word_ids),
       ("word_attention_mask", Arr.one (createWordFeatures cfg cont ex.wperm ex.wacts
          ex.word_ids).word_attention_mask),
       ("word_segment_ids", Arr.one (createWordFeatures cfg cont ex.wperm ex.wacts
          ex.word_ids).word_segment_ids),
       ("masked_lm_labels", Arr.one ((createWordFeatures cfg cont ex.wperm ex.wacts
          ex.word_ids).masked_lm_labels.getD []))] := by
  unfold wordFeatureDict
  rw [createWordFeatures_pos cfg cont ex.wperm ex.wacts ex.word_ids hp]
  rfl

theorem entityFeatureDict_zero (cfg : WorkerCfg) (ex : ExampleIn)
    (hp : cfg.maskedEntityProb.num = 0) :
    entityFeatureDict cfg ex =
      [("entity_ids", Arr.one (createEntityFeatures cfg ex.eperm ex.entity_ids
          ex.entity_position_ids).entity_ids),
       ("entity_position_ids", Arr.two (createEntityFeatures cfg ex.eperm
          ex.entity_ids ex.entity_position_ids).entity_position_ids),
       ("entity_attention_mask", Arr.one (createEntityFeatures cfg ex.eperm
          ex.entity_ids ex.entity_position_ids).entity_attention_mask),
       ("entity_segment_ids", Arr.one (createEntityFeatures cfg ex.eperm
          ex.entity_ids ex.entity_position_ids).entity_segment_ids)] := by
  unfold entityFeatureDict
  rw [createEntityFeatures_zero cfg ex.eperm ex.entity_ids ex.entity_position_ids hp]
  rfl

theorem entityFeatureDict_pos (cfg : WorkerCfg) (ex : ExampleIn)
    (hp : cfg.maskedEntityProb.num ≠ 0) :
    entityFeatureDict cfg ex =
      [("entity_ids", Arr.one (createEntityFeatures cfg ex.eperm ex.entity_ids
          ex.entity_position_ids).entity_ids),
       ("entity_position_ids", Arr.two (createEntityFeatures cfg ex.eperm
          ex.entity_ids ex.entity_position_ids).entity_position_ids),
       ("entity_attention_mask", Arr.one (createEntityFeatures cfg ex.eperm
          ex.entity_ids ex.entity_position_ids).entity_attention_mask),
       ("entity_segment_ids", Arr.one (createEntityFeatures cfg ex.eperm
          ex.entity_ids ex.entity_position_ids).entity_segment_ids),
       ("masked_entity_labels", Arr.one ((createEntityFeatures cfg ex.eperm
          ex.entity_ids ex.entity_position_ids).masked_entity_labels.getD []))] := by
  unfold entityFeatureDict
  rw [createEntityFeatures_pos cfg ex.eperm ex.entity_ids ex.entity_position_ids hp]
  rfl

theorem createWordFeatures_labels_getD_length (cfg : WorkerCfg) (cont : ℤ → Bool)
    (perm : List ℕ) (acts : ℕ → MaskAction) (wordIds : List ℤ)
    (hp : cfg.maskedLmProb.num ≠ 0) :
    ((createWordFeatures cfg cont perm acts wordIds).masked_lm_labels.getD
      []).length = cfg.maxSeqLength := by
  rw [createWordFeatures_pos cfg cont perm acts wordIds hp]
  simp only [Option.getD_some]
  rw [maskLoop_labels_length, maskInit_labels_length]

theorem createEntityFeatures_labels_getD_length (cfg : WorkerCfg) (perm : List ℕ)
    (entityIds : List ℤ) (entityPositionIds : List (List ℤ))
    (hp : cfg.maskedEntityProb.num ≠ 0) :
    ((createEntityFeatures cfg perm entityIds
      entityPositionIds).masked_entity_labels.getD []).length =
      cfg.maxEntityLength := by
  rw [createEntityFeatures_pos cfg perm entityIds entityPositionIds hp]
  simp only [Option.getD_some]
  rw [entityMaskFold_fst_length, List.length_replicate]

theorem wordFeatureDict_lookup_len (cfg : WorkerCfg) (cont : ℤ → Bool)
    (ex ex0 : ExampleIn) (kv0 : String × Arr)
    (h0 : kv0 ∈ wordFeatureDict cfg cont ex0) :
    ∃ arr, (wordFeatureDict cfg cont ex).lookup kv0.1 = some arr ∧
      arr.len = cfg.maxSeqLength := by
  by_cases hp : cfg.maskedLmProb.num = 0
  · rw [wordFeatureDict_zero cfg cont ex0 hp] at h0
    rw [wordFeatureDict_zero cfg cont ex hp]
    simp only [List.mem_cons, List.not_mem_nil, or_false] at h0
    rcases h0 with rfl | rfl | rfl
    · exact ⟨_, rfl, by
        rw [arrLen_one]
        exact createWordFeatures_word_ids_length cfg cont ex.wperm ex.wacts
          ex.word_ids⟩
    · exact ⟨_, rfl, by
        rw [arrLen_one]
        exact createWordFeatures_mask_length cfg cont ex.wperm ex.wacts ex.word_ids⟩
    · exact ⟨_, rfl, by
        rw [arrLen_one]
        exact createWordFeatures_seg_length cfg cont ex.wperm ex.wacts ex.word_ids⟩
  · rw [wordFeatureDict_pos cfg cont ex0 hp] at h0
    rw [wordFeatureDict_pos cfg cont ex hp]
    simp only [List.mem_cons, List.not_mem_nil, or_false] at h0
    rcases h0 with rfl | rfl | rfl | rfl
    · exact ⟨_, rfl, by
        rw [arrLen_one]
        exact createWordFeatures_word_ids_length cfg cont ex.wperm ex.wacts
          ex.word_ids⟩
    · exact ⟨_, rfl, by
        rw [arrLen_one]
        exact createWordFeatures_mask_length cfg cont ex.wperm ex.wacts ex.word_ids⟩
    · exact ⟨_, rfl, by
        rw [arrLen_one]
        exact createWordFeatures_seg_length cfg cont ex.wperm ex.wacts ex.word_ids⟩
    · exact ⟨_, rfl, by
        rw [arrLen_one]
        exact createWordFeatures_labels_getD_length cfg cont ex.wperm ex.wacts
          ex.word_ids hp⟩

theorem entityFeatureDict_lookup_len (cfg : WorkerCfg) (ex ex0 : ExampleIn)
    (kv0 : String × Arr) (h0 : kv0 ∈ entityFeatureDict cfg ex0) :
    ∃ arr, (entityFeatureDict cfg ex).lookup kv0.1 = some arr ∧
      arr.len = cfg.maxEntityLength := by
  by_cases hp : cfg.maskedEntityProb.num = 0
  · rw [entityFeatureDict_zero cfg ex0 hp] at h0
    rw [entityFeatureDict_zero cfg ex hp]
    simp only [List.mem_cons, List.not_mem_nil, or_false] at h0
    rcases h0 with rfl | rfl | rfl | rfl
    · exact ⟨_, rfl, by
        rw [arrLen_one]
        exact createEntityFeatures_entity_ids_length cfg ex.eperm ex.entity_ids
          ex.entity_position_ids⟩
    · exact ⟨_, rfl, by
        rw [arrLen_two]
        exact createEntityFeatures_position_length cfg ex.eperm ex.entity_ids
          ex.entity_position_ids⟩
    · exact ⟨_, rfl, by
        rw [arrLen_one]
        exact createEntityFeatures_attn_length cfg ex.eperm ex.entity_ids
          ex.entity_position_ids⟩
    · exact ⟨_, rfl, by
        rw [arrLen_one]
        exact createEntityFeatures_seg_length cfg ex.eperm ex.entity_ids
          ex.entity_position_ids⟩
  · rw [entityFeatureDict_pos cfg ex0 hp] at h0
    rw [entityFeatureDict_pos cfg ex hp]
    simp only [List.mem_cons, List.not_mem_nil, or_false] at h0
    rcases h0 with rfl | rfl | rfl | rfl | rfl
    · exact ⟨_, rfl, by
        rw [arrLen_one]
        exact createEntityFeatures_entity_ids_length cfg ex.eperm ex.entity_ids
          ex.entity_position_ids⟩
    · exact ⟨_, rfl, by
        rw [arrLen_two]
        exact createEntityFeatures_position_length cfg ex.eperm ex.entity_ids
          ex.entity_position_ids⟩
    · exact ⟨_, rfl, by
        rw [arrLen_one]
        exact createEntityFeatures_attn_length cfg ex.eperm ex.entity_ids
          ex.entity_position_ids⟩
    · exact ⟨_, rfl, by
        rw [arrLen_one]
        exact createEntityFeatures_seg_length cfg ex.eperm ex.entity_ids
          ex.entity_position_ids⟩
    · exact ⟨_, rfl, by
        rw [arrLen_one]
        exact createEntityFeatures_labels_getD_length cfg ex.eperm ex.entity_ids
          ex.entity_position_ids hp⟩

theorem stackFields_arr_len (m L : ℕ) (dicts : List (List (String × Arr)))
    (hlk : ∀ d ∈ dicts, ∀ kv0 ∈ dicts.headD [],
      ∃ arr, d.lookup kv0.1 = some arr ∧ arr.len = L) :
    ∀ kv ∈ stackFields m dicts, ∀ a ∈ kv.2, a.len = min m L := by
  intro kv hkv a ha
  cases dicts with
  | nil => exact absurd hkv (List.not_mem_nil kv)
  | cons d0 drest =>
    simp only [stackFields] at hkv
    rcases List.mem_map.mp hkv with ⟨kv0, hkv0, rfl⟩
    simp only at ha
    rcases List.mem_map.mp ha with ⟨d, hd, rfl⟩
    obtain ⟨arr, harr, hlen⟩ := hlk d hd kv0 (by simpa using hkv0)
    rw [harr]
    simp only [Option.getD_some]
    rw [arrTrim_len, hlen]

/-- C5 counterexample: a full buffer whose examples all have zero entities.
The emitted batch's `entity_ids` field has trailing dimension 1 (the running
maximum is reset to the minimum 1, never 0), while the true maximum real
entity count over the buffer is 0 — so the trailing dimension does not equal
the true maximum, falsifying the claim as stated. -/
theorem c5_trimming_counterexample :
    trueEntityMax [exB] = 0 ∧
    ((lukeWorkerRun cfgA (fun _ => false) 1 [exB]).getD 0 []).lookup "entity_ids" =
      some [Arr.one [0]] ∧
    (Arr.one ([0] : List ℤ)).len ≠ trueEntityMax [exB] := by
  decide

theorem chunkBatch_expand (cfg : WorkerCfg) (cont : ℤ → Bool) (c : List ExampleIn) :
    chunkBatch (wordFeatureDict cfg cont) (entityFeatureDict cfg) c =
      stackFields (max 1 (trueWordMax c)) (c.map (wordFeatureDict cfg cont)) ++
      stackFields (max 1 (trueEntityMax c)) (c.map (entityFeatureDict cfg)) := by
  unfold chunkBatch mkBatchFromBuf trueWordMax trueEntityMax
  rw [List.map_map, List.map_map, foldl_max_one, foldl_max_one]
  rfl

/-- C5 (amended): for every emitted batch, every field's leading dimension is
`batch_size` and every word field's trailing dimension is the true maximum of
`word_count + 2` over the buffer; every entity field's trailing dimension is
`max(1, true maximum real entity count)` — the configured structural maxima
are trimmed away, but an all-zero-entity buffer yields width 1, not 0,
because the running maximum is initialized to 1. -/
theorem c5_amended_batch_dims (cfg : WorkerCfg) (cont : ℤ → Bool) (bs : ℕ)
    (examples : List ExampleIn) (hbs : 0 < bs) (hmaxE : 1 ≤ cfg.maxEntityLength)
    (hshape : ∀ ex ∈ examples, ex.word_ids.length + 2 ≤ cfg.maxSeqLength ∧
      ex.entity_ids.length ≤ cfg.maxEntityLength) :
    ∀ k, k < (fullChunks bs examples).length →
      ((lukeWorkerRun cfg cont bs examples).getD k [] =
        stackFields (max 1 (trueWordMax ((fullChunks bs examples).getD k [])))
          (((fullChunks bs examples).getD k []).map (wordFeatureDict cfg cont)) ++
        stackFields (max 1 (trueEntityMax ((fullChunks bs examples).getD k [])))
          (((fullChunks bs examples).getD k []).map (entityFeatureDict cfg))) ∧
      max 1 (trueWordMax ((fullChunks bs examples).getD k [])) =
        trueWordMax ((fullChunks bs examples).getD k []) ∧
      (∀ kv ∈ stackFields
          (max 1 (trueWordMax ((fullChunks bs examples).getD k [])))
          (((fullChunks bs examples).getD k []).map (wordFeatureDict cfg cont)),
        kv.2.length = bs ∧ ∀ a ∈ kv.2,
          a.len = trueWordMax ((fullChunks bs examples).getD k [])) ∧
      (∀ kv ∈ stackFields
          (max 1 (trueEntityMax ((fullChunks bs examples).getD k [])))
          (((fullChunks bs examples).getD k []).map (entityFeatureDict cfg)),
        kv.2.length = bs ∧ ∀ a ∈ kv.2,
          a.len = max 1 (trueEntityMax ((fullChunks bs examples).getD k []))) := by
  intro k hk
  set c := (fullChunks bs examples).getD k [] with hcdef
  have hc : c = (fullChunks bs examples)[k] := List.getD_eq_getElem _ _ hk
  have hcmem : c ∈ fullChunks bs examples := by
    rw [hc]
    exact List.getElem_mem hk
  have hclen : c.length = bs :=
    fullChunks_mem_length bs examples.length examples (le_refl _) c hcmem
  have hcsub : ∀ x ∈ c, x ∈ examples :=
    fullChunks_mem_subset bs examples.length examples (le_refl _) c hcmem
  have hcne : c ≠ [] := by
    intro h
    rw [h] at hclen
    rw [List.length_nil] at hclen
    omega
  obtain ⟨ex0, ctail, hc0⟩ : ∃ ex0 ctail, c = ex0 :: ctail := by
    cases hcc : c with
    | nil => exact absurd hcc hcne
    | cons a t => exact ⟨a, t, rfl⟩
  have hwmax2 : 2 ≤ trueWordMax c := trueWordMax_ge_two c hcne
  have hwmaxle : trueWordMax c ≤ cfg.maxSeqLength :=
    foldl_max_le _ c 0 _ (by omega) (fun ex hex => (hshape ex (hcsub ex hex)).1)
  have hemaxle : trueEntityMax c ≤ cfg.maxEntityLength :=
    foldl_max_le _ c 0 _ (by omega) (fun ex hex => (hshape ex (hcsub ex hex)).2)
  have hrun : lukeWorkerRun cfg cont bs examples =
      (fullChunks bs examples).map
        (chunkBatch (wordFeatureDict cfg cont) (entityFeatureDict cfg)) :=
    workerRun_chunks_aux bs _ _ hbs examples.length examples (le_refl _)
  have hbatch : (lukeWorkerRun cfg cont bs examples).getD k [] =
      chunkBatch (wordFeatureDict cfg cont) (entityFeatureDict cfg) c := by
    rw [hrun, List.getD_eq_getElem _ _ (by simpa using hk), List.getElem_map, hc]
  have hlkw : ∀ d ∈ c.map (wordFeatureDict cfg cont),
      ∀ kv0 ∈ (c.map (wordFeatureDict cfg cont)).headD [],
      ∃ arr, d.lookup kv0.1 = some arr ∧ arr.len = cfg.maxSeqLength := by
    intro d hd kv0 hkv0
    rcases List.mem_map.mp hd with ⟨ex, _, rfl⟩
    rw [hc0] at hkv0
    simp only [List.map_cons, List.headD_cons] at hkv0
    exact wordFeatureDict_lookup_len cfg cont ex ex0 kv0 hkv0
  have hlke : ∀ d ∈ c.map (entityFeatureDict cfg),
      ∀ kv0 ∈ (c.map (entityFeatureDict cfg)).headD [],
      ∃ arr, d.lookup kv0.1 = some arr ∧ arr.len = cfg.maxEntityLength := by
    intro d hd kv0 hkv0
    rcases List.mem_map.mp hd with ⟨ex, _, rfl⟩
    rw [hc0] at hkv0
    simp only [List.map_cons, List.headD_cons] at hkv0
    exact entityFeatureDict_lookup_len cfg ex ex0 kv0 hkv0
  refine ⟨?_, ?_, ?_, ?_⟩
  · rw [hbatch, chunkBatch_expand]
  · exact max_eq_right (by omega)
  · intro kv hkv
    constructor
    · rw [stackFields_val_length _ _ kv hkv, List.length_map, hclen]
    · intro a ha
      have hal := stackFields_arr_len (max 1 (trueWordMax c)) cfg.maxSeqLength
        (c.map (wordFeatureDict cfg cont)) hlkw kv hkv a ha
      rw [hal, max_eq_right (show 1 ≤ trueWordMax c by omega),
        min_eq_left hwmaxle]
  · intro kv hkv
    constructor
    · rw [stackFields_val_length _ _ kv hkv, List.length_map, hclen]
    · intro a ha
      have hal := stackFields_arr_len (max 1 (trueEntityMax c)) cfg.maxEntityLength
        (c.map (entityFeatureDict cfg)) hlke kv hkv a ha
      rw [hal, min_eq_left (max_le hmaxE hemaxle)]

theorem c5_amended_batch_dims_witness :
    0 < 2 ∧ 1 ≤ cfgA.maxEntityLength ∧
    (∀ ex ∈ ([exA, exC] : List ExampleIn),
      ex.word_ids.length + 2 ≤ cfgA.maxSeqLength ∧
      ex.entity_ids.length ≤ cfgA.maxEntityLength) ∧
    (∀ k, k < (fullChunks 2 [exA, exC]).length →
      ((lukeWorkerRun cfgA (fun _ => false) 2 [exA, exC]).getD k [] =
        stackFields (max 1 (trueWordMax ((fullChunks 2 [exA, exC]).getD k [])))
          (((fullChunks 2 [exA, exC]).getD k []).map
            (wordFeatureDict cfgA (fun _ => false))) ++
        stackFields (max 1 (trueEntityMax ((fullChunks 2 [exA, exC]).getD k [])))
          (((fullChunks 2 [exA, exC]).getD k []).map (entityFeatureDict cfgA))) ∧
      max 1 (trueWordMax ((fullChunks 2 [exA, exC]).getD k [])) =
        trueWordMax ((fullChunks 2 [exA, exC]).getD k []) ∧
      (∀ kv ∈ stackFields
          (max 1 (trueWordMax ((fullChunks 2 [exA, exC]).getD k [])))
          (((fullChunks 2 [exA, exC]).getD k []).map
            (wordFeatureDict cfgA (fun _ => false))),
        kv.2.length = 2 ∧ ∀ a ∈ kv.2,
          a.len = trueWordMax ((fullChunks 2 [exA, exC]).getD k [])) ∧
      (∀ kv ∈ stackFields
          (max 1 (trueEntityMax ((fullChunks 2 [exA, exC]).getD k [])))
          (((fullChunks 2 [exA, exC]).getD k []).map (entityFeatureDict cfgA)),
        kv.2.length = 2 ∧ ∀ a ∈ kv.2,
          a.len = max 1 (trueEntityMax ((fullChunks 2 [exA, exC]).getD k [])))) :=
  ⟨by decide, by decide, by decide,
   c5_amended_batch_dims cfgA (fun _ => false) 2 [exA, exC] (by decide) (by decide)
     (by decide)⟩

/-- C8: the constructor's mode dispatch selects the `default` or `e2e` worker
class without error, and raises `RuntimeError: Unsupported mode` for every
other mode string.  The dispatch runs inside `__init__`, which only stores a
partially applied worker factory: no worker is created or started until
`generate_batches` is called. -/
theorem c8_mode_dispatch :
    selectWorkerCls "default" = .ok .defaultWorker ∧
    selectWorkerCls "e2e" = .ok .e2eWorker ∧
    ∀ m : String, m ≠ "default" → m ≠ "e2e" →
      selectWorkerCls m = .error ("Unsupported mode: " ++ m) := by
  refine ⟨rfl, rfl, ?_⟩
  intro m h1 h2
  unfold selectWorkerCls
  rw [if_neg h1, if_neg h2]

theorem c8_mode_dispatch_witness :
    ("bogus" : String) ≠ "default" ∧ ("bogus" : String) ≠ "e2e" ∧
    selectWorkerCls "default" = .ok .defaultWorker ∧
    selectWorkerCls "e2e" = .ok .e2eWorker ∧
    selectWorkerCls "bogus" = .error ("Unsupported mode: " ++ "bogus") :=
  ⟨by decide, by decide, c8_mode_dispatch.1, c8_mode_dispatch.2.1,
   c8_mode_dispatch.2.2 "bogus" (by decide) (by decide)⟩

/-- C9: teardown (terminate the worker, then close the channel, each
best-effort) never raises: from every state — including a worker that is
already dead and a channel that is already closed, where the raw cleanup
steps fail — it returns `.ok` with the worker dead and the channel closed,
because each cleanup failure is suppressed. -/
theorem c9_teardown_suppresses (s : TeardownState) :
    teardown s = .ok ⟨.dead, .closed⟩ := by
  cases s with
  | mk w ch => cases w <;> cases ch <;> rfl
